import Mathlib

/-!
Verification of the LilyPond-to-Strudel translation core
(`src/lib.rs` of `strudel_of_lilypond`).

The Rust source is shallowly embedded: each Rust function becomes a Lean
function of the same name (camelCased), operating on `List Char` / `String`
in place of Rust strings and on `Nat` / `Int` in place of `u32` / `i32`
(with explicit bounds where the source's `parse::<u32>()` can fail).
The mutable-index recursions of the pattern generator are translated to
fuel-indexed recursions over the remaining event list; every step consumes
at least one event, so fuel `events.length` is exact.

Unicode classes used by the source (`char::is_alphabetic`,
`char::is_numeric`, regex `\s`, `\w`) are modelled by their ASCII
restrictions; all concrete inputs considered are ASCII.
-/

/-! ## Data model (structs and enums of `src/lib.rs`) -/

/-- `Tempo` of the source: beat unit denominator and beats per minute. -/
structure Tempo where
  beat_unit : Nat
  bpm : Nat
deriving DecidableEq

/-- `Note` of the source.  The fields are, in source order:
name, octave, accidental, duration, midi, chord_notes.
`chord_notes` makes the type a nested inductive (a chord's representative
note owns the list of its chord partners). -/
inductive Note : Type where
  | mk (name : Char) (octave : Int) (accidental : Option String)
      (duration : Nat) (midi : Int) (chord_notes : Option (List Note))

def Note.name : Note → Char
  | .mk n _ _ _ _ _ => n

def Note.octave : Note → Int
  | .mk _ o _ _ _ _ => o

def Note.accidental : Note → Option String
  | .mk _ _ a _ _ _ => a

def Note.duration : Note → Nat
  | .mk _ _ _ d _ _ => d

def Note.midi : Note → Int
  | .mk _ _ _ _ m _ => m

def Note.chord_notes : Note → Option (List Note)
  | .mk _ _ _ _ _ c => c

/-- `DrumHit` of the source. -/
structure DrumHit where
  name : String
  duration : Nat
deriving DecidableEq

/-- `PitchedEvent` of the source. -/
inductive PitchedEvent where
  | note (n : Note)
  | rest (duration : Nat)
  | barLine
  | repeatStart (count : Nat)
  | repeatEnd
  | comment (text : String)

/-- `DrumEvent` of the source. -/
inductive DrumEvent where
  | hit (h : DrumHit)
  | rest (duration : Nat)
  | barLine
  | repeatStart (count : Nat)
  | repeatEnd
  | comment (text : String)
deriving DecidableEq

/-- `DrumVoiceData` of the source. -/
structure DrumVoiceData where
  events : List DrumEvent
  punchcard_color : Option String
  gain : Option String
  pan : Option String
deriving DecidableEq

/-- `StaffContent` of the source. -/
inductive StaffContent where
  | notes (events : List PitchedEvent)
  | drums (voices : List DrumVoiceData)

/-- `Staff` of the source (the redundant `kind` discriminant of the source
is determined by `content` and omitted). -/
structure Staff where
  content : StaffContent
  punchcard_color : Option String
  gain : Option String
  pan : Option String

/-- `Staff::new_pitched`. -/
def Staff.newPitched (events : List PitchedEvent) : Staff :=
  ⟨.notes events, none, none, none⟩

/-- `Staff::new_pitched_with_options`. -/
def Staff.newPitchedWithOptions (events : List PitchedEvent)
    (punchcard_color gain pan : Option String) : Staff :=
  ⟨.notes events, punchcard_color, gain, pan⟩

/-- `Staff::new_drums`. -/
def Staff.newDrums (voices : List DrumVoiceData) : Staff :=
  ⟨.drums voices, none, none, none⟩

/-- `ParseResult` of the source. -/
structure ParseResult where
  staves : List Staff
  tempo : Tempo

/-- `VariableKind` of the source: a macro body recorded as melodic or
percussive raw text. -/
inductive VariableKind where
  | pitched (body : List Char)
  | drums (body : List Char)
deriving DecidableEq

/-! ## StrudelGenerator: bar counting

`count_pitched_bars` / `count_drum_bars` walk the event list with a mutable
index shared with the recursive call (which consumes up to and including
the matching `RepeatEnd`).  The translation returns the pair
(bars counted, remaining events after the walk) and is indexed by fuel;
every loop iteration consumes exactly one event, so fuel = list length
is always sufficient, and the fuel-0 fallback (which mirrors the
loop-not-entered behaviour) is never reached from the top-level entry
points below. -/

/-- Flush step shared by the bar counters: `if has_content { bars += 1 }`. -/
def flushCountB (h : Bool) (n : Nat) : Nat :=
  if h then n + 1 else n

/-- `StrudelGenerator::count_pitched_bars` (fuel-indexed body).  The `Bool`
argument is the `has_content` flag. -/
def countPitchedF : Nat → List PitchedEvent → Bool → Nat × List PitchedEvent
  | 0, l, h => (flushCountB h 0, l)
  | _ + 1, [], h => (flushCountB h 0, [])
  | f + 1, .note _ :: rest, _ => countPitchedF f rest true
  | f + 1, .rest _ :: rest, _ => countPitchedF f rest true
  | f + 1, .barLine :: rest, h =>
      let r := countPitchedF f rest false
      (flushCountB h r.1, r.2)
  | f + 1, .repeatStart c :: rest, h =>
      let inner := countPitchedF f rest false
      let cont := countPitchedF f inner.2 false
      (flushCountB h (inner.1 * c + cont.1), cont.2)
  | _ + 1, .repeatEnd :: rest, h => (flushCountB h 0, rest)
  | f + 1, .comment _ :: rest, h => countPitchedF f rest h

/-- `StrudelGenerator::count_pitched_bars` started at index 0, as used by
the staff generators. -/
def countPitchedBars (events : List PitchedEvent) : Nat :=
  (countPitchedF events.length events false).1

/-- `StrudelGenerator::count_drum_bars` (fuel-indexed body). -/
def countDrumF : Nat → List DrumEvent → Bool → Nat × List DrumEvent
  | 0, l, h => (flushCountB h 0, l)
  | _ + 1, [], h => (flushCountB h 0, [])
  | f + 1, .hit _ :: rest, _ => countDrumF f rest true
  | f + 1, .rest _ :: rest, _ => countDrumF f rest true
  | f + 1, .barLine :: rest, h =>
      let r := countDrumF f rest false
      (flushCountB h r.1, r.2)
  | f + 1, .repeatStart c :: rest, h =>
      let inner := countDrumF f rest false
      let cont := countDrumF f inner.2 false
      (flushCountB h (inner.1 * c + cont.1), cont.2)
  | _ + 1, .repeatEnd :: rest, h => (flushCountB h 0, rest)
  | f + 1, .comment _ :: rest, h => countDrumF f rest h

/-- `StrudelGenerator::count_drum_bars` started at index 0. -/
def countDrumBars (events : List DrumEvent) : Nat :=
  (countDrumF events.length events false).1

/-! ## StrudelGenerator: item formatting -/

/-- `StrudelGenerator::format_cpm_expression`: `format!("tempo/4/{}", bars)`. -/
def formatCpmExpression (bars : Nat) : String :=
  "tempo/4/" ++ Nat.repr bars

/-- `StrudelGenerator::format_note`. -/
def formatNote (n : Note) : String :=
  let acc :=
    match n.accidental with
    | some a => if a = "is" then "#" else if a = "es" then "b" else ""
    | none => ""
  toString n.name ++ acc ++ toString n.octave

/-- `StrudelGenerator::format_pattern_value`. -/
def formatPatternValue (value : String) : String :=
  if value.contains '<' then "\"" ++ value ++ "\"" else value

/-- Stand-in for the f32 computation in the default branch of
`format_weight` (`(4.0 / duration as f32).to_string()`).  f32 rounding and
decimal rendering are not modelled; no theorem below depends on this
branch, and claim C6's clause about it is reported not statable. -/
def f32WeightRepr (duration : Nat) : String :=
  "4/" ++ Nat.repr duration

/-- `StrudelGenerator::format_weight`. -/
def formatWeight (duration : Nat) : Option String :=
  match duration with
  | 1 => some "4"
  | 2 => some "2"
  | 4 => none
  | 8 => some "0.5"
  | 16 => some "0.25"
  | _ => some (f32WeightRepr duration)

/-- `StrudelGenerator::format_pitched_note`. -/
def formatPitchedNote (n : Note) : String :=
  let note_str :=
    match n.chord_notes with
    | some chord_notes =>
        "[" ++ String.intercalate "," (formatNote n :: chord_notes.map formatNote) ++ "]"
    | none => formatNote n
  match formatWeight n.duration with
  | some w => note_str ++ "@" ++ w
  | none => note_str

/-- `StrudelGenerator::format_rest`.  `4 / duration` is `u32` division in
the source (which panics at duration 0; duration 0 is outside the spec's
data model, and Nat division is used here). -/
def formatRest (duration : Nat) : String :=
  let quarter_notes := 4 / duration
  if quarter_notes ≤ 1 then "~"
  else String.intercalate " " (List.replicate quarter_notes "~")

/-- `StrudelGenerator::format_drum_hit`. -/
def formatDrumHit (h : DrumHit) : String :=
  match formatWeight h.duration with
  | some w => h.name ++ "@" ++ w
  | none => h.name

/-! ## StrudelGenerator: pattern generation

`generate_pitched_pattern_with_bars` / `generate_drum_pattern_with_bars`
use the same mutable-index walk as the bar counters, additionally carrying
the list of finished bar strings and the current bar's item strings.
The translation below returns (finished bars, bar count, remaining events);
the source's returned pattern string is the `"\n"`-join of the finished
bars, taken at the top-level entry points and at the recursive call site. -/

/-- `format!("[{}]", current_bar.join(" "))`. -/
def barGroup (cur : List String) : String :=
  "[" ++ String.intercalate " " cur ++ "]"

/-- Flush of a non-empty current bar onto the finished-bars list. -/
def flushBars (cur : List String) (rest : List String) : List String :=
  if cur.isEmpty then rest else barGroup cur :: rest

/-- Bar-count increment accompanying `flushBars`. -/
def flushCount (cur : List String) (n : Nat) : Nat :=
  if cur.isEmpty then n else n + 1

/-- `StrudelGenerator::generate_pitched_pattern_with_bars` (fuel-indexed
body; `cur` is `current_bar`).  Returns (bars, bar_count, remaining). -/
def genPitchedF : Nat → List PitchedEvent → List String →
    List String × Nat × List PitchedEvent
  | 0, l, cur => (flushBars cur [], flushCount cur 0, l)
  | _ + 1, [], cur => (flushBars cur [], flushCount cur 0, [])
  | f + 1, .note n :: rest, cur => genPitchedF f rest (cur ++ [formatPitchedNote n])
  | f + 1, .rest d :: rest, cur => genPitchedF f rest (cur ++ [formatRest d])
  | f + 1, .barLine :: rest, cur =>
      let r := genPitchedF f rest []
      (flushBars cur r.1, flushCount cur r.2.1, r.2.2)
  | f + 1, .repeatStart c :: rest, cur =>
      let inner := genPitchedF f rest []
      let innerText := String.intercalate "\n" inner.1
      let total_bars := inner.2.1 * c
      let grp :=
        if inner.2.1 > 1 then
          "[[" ++ innerText ++ "]!" ++ Nat.repr c ++ "]@" ++ Nat.repr total_bars
        else
          "[" ++ innerText ++ "]!" ++ Nat.repr c
      let cont := genPitchedF f inner.2.2 []
      (flushBars cur (grp :: cont.1), flushCount cur (total_bars + cont.2.1), cont.2.2)
  | _ + 1, .repeatEnd :: rest, cur => (flushBars cur [], flushCount cur 0, rest)
  | f + 1, .comment _ :: rest, cur => genPitchedF f rest cur

/-- `StrudelGenerator::generate_pitched_pattern_with_bars` started at
index 0: returns `(bars.join("\n"), bar_count)`. -/
def generatePitchedPatternWithBars (events : List PitchedEvent) : String × Nat :=
  let r := genPitchedF events.length events []
  (String.intercalate "\n" r.1, r.2.1)

/-- `StrudelGenerator::generate_pitched_pattern`. -/
def generatePitchedPattern (events : List PitchedEvent) : String :=
  (generatePitchedPatternWithBars events).1

/-- `StrudelGenerator::generate_drum_pattern_with_bars` (fuel-indexed
body). -/
def genDrumF : Nat → List DrumEvent → List String →
    List String × Nat × List DrumEvent
  | 0, l, cur => (flushBars cur [], flushCount cur 0, l)
  | _ + 1, [], cur => (flushBars cur [], flushCount cur 0, [])
  | f + 1, .hit h :: rest, cur => genDrumF f rest (cur ++ [formatDrumHit h])
  | f + 1, .rest d :: rest, cur => genDrumF f rest (cur ++ [formatRest d])
  | f + 1, .barLine :: rest, cur =>
      let r := genDrumF f rest []
      (flushBars cur r.1, flushCount cur r.2.1, r.2.2)
  | f + 1, .repeatStart c :: rest, cur =>
      let inner := genDrumF f rest []
      let innerText := String.intercalate "\n" inner.1
      let total_bars := inner.2.1 * c
      let grp :=
        if inner.2.1 > 1 then
          "[[" ++ innerText ++ "]!" ++ Nat.repr c ++ "]@" ++ Nat.repr total_bars
        else
          "[" ++ innerText ++ "]!" ++ Nat.repr c
      let cont := genDrumF f inner.2.2 []
      (flushBars cur (grp :: cont.1), flushCount cur (total_bars + cont.2.1), cont.2.2)
  | _ + 1, .repeatEnd :: rest, cur => (flushBars cur [], flushCount cur 0, rest)
  | f + 1, .comment _ :: rest, cur => genDrumF f rest cur

/-- `StrudelGenerator::generate_drum_pattern_with_bars` started at
index 0. -/
def generateDrumPatternWithBars (events : List DrumEvent) : String × Nat :=
  let r := genDrumF events.length events []
  (String.intercalate "\n" r.1, r.2.1)

/-- `StrudelGenerator::generate_drum_pattern`. -/
def generateDrumPattern (events : List DrumEvent) : String :=
  (generateDrumPatternWithBars events).1

/-! ## StrudelGenerator: staff assembly -/

/-- The notes extracted at the start of
`generate_pitched_staff_with_options`. -/
def pitchedNotesOf (events : List PitchedEvent) : List Note :=
  events.filterMap fun e =>
    match e with
    | .note n => some n
    | _ => none

/-- Early-return text of the pitched staff generator. -/
def noNotesStr : String := "// No notes to convert"

/-- Early-return text of the drum staff generators. -/
def noDrumHitsStr : String := "// No drum hits to convert"

/-- The modifier chain built (gain, then pan, then color + punchcard) by
`generate_pitched_staff_with_options` and, with identical text, by
`generate_single_drum_voice_with_options`. -/
def inlineModifiers (punchcard_color gain pan : Option String) : String :=
  (match gain with
   | some g => "\n.gain(" ++ formatPatternValue g ++ ")"
   | none => "") ++
  (match pan with
   | some p => "\n.pan(" ++ formatPatternValue p ++ ")"
   | none => "") ++
  (match punchcard_color with
   | some color => "\n.color(\"" ++ color ++ "\")" ++ "\n._punchcard()"
   | none => "")

/-- The `base` string of `generate_pitched_staff_with_options`:
`format!("note(`\n{}`){}\n  .s(\"piano\")", pattern, modifiers)`. -/
def pitchedBase (events : List PitchedEvent)
    (punchcard_color gain pan : Option String) : String :=
  "note(`\n" ++ generatePitchedPattern events ++ "`)" ++
    inlineModifiers punchcard_color gain pan ++ "\n  .s(\"piano\")"

/-- The appended tempo expression:
`format!("{base}\n  .cpm({})", Self::format_cpm_expression(bars))`. -/
def cpmCall (bars : Nat) : String :=
  "\n  .cpm(" ++ formatCpmExpression bars ++ ")"

/-- `StrudelGenerator::generate_pitched_staff_with_options`. -/
def generatePitchedStaffWithOptions (events : List PitchedEvent)
    (tempo : Option Tempo) (punchcard_color gain pan : Option String) : String :=
  if (pitchedNotesOf events).isEmpty then noNotesStr
  else
    let base := pitchedBase events punchcard_color gain pan
    if tempo.isSome then
      let bars := countPitchedBars events
      if bars > 0 then base ++ cpmCall bars else base
    else base

/-- `StrudelGenerator::generate_pitched_staff`. -/
def generatePitchedStaff (events : List PitchedEvent) (tempo : Option Tempo) : String :=
  generatePitchedStaffWithOptions events tempo none none none

/-- The hits extracted at the start of
`generate_single_drum_voice_with_options`. -/
def drumHitsOf (events : List DrumEvent) : List DrumHit :=
  events.filterMap fun e =>
    match e with
    | .hit h => some h
    | _ => none

/-- The `with_modifiers` string of
`generate_single_drum_voice_with_options`: `sound`-wrapped pattern plus
modifier chain. -/
def singleDrumBase (events : List DrumEvent)
    (punchcard_color gain pan : Option String) : String :=
  "sound(`\n" ++ generateDrumPattern events ++ "`)" ++
    inlineModifiers punchcard_color gain pan

/-- `StrudelGenerator::generate_single_drum_voice_with_options`. -/
def generateSingleDrumVoiceWithOptions (events : List DrumEvent)
    (tempo : Option Tempo) (punchcard_color gain pan : Option String) : String :=
  if (drumHitsOf events).isEmpty then noDrumHitsStr
  else
    let with_modifiers := singleDrumBase events punchcard_color gain pan
    if tempo.isSome then
      let bars := countDrumBars events
      if bars > 0 then with_modifiers ++ cpmCall bars else with_modifiers
    else with_modifiers

/-- `StrudelGenerator::format_voice_modifiers` (two-space indented
variant used inside `stack`). -/
def formatVoiceModifiers (punchcard_color gain pan : Option String) : String :=
  (match gain with
   | some g => "\n  .gain(" ++ formatPatternValue g ++ ")"
   | none => "") ++
  (match pan with
   | some p => "\n  .pan(" ++ formatPatternValue p ++ ")"
   | none => "") ++
  (match punchcard_color with
   | some color => "\n  .color(\"" ++ color ++ "\")" ++ "\n  ._punchcard()"
   | none => "")

/-- The stacked multi-voice string of `generate_drum_staff`:
`format!("stack(\n  {},\n)", voice_patterns.join(",\n  "))`. -/
def stackedText (voices : List DrumVoiceData) : String :=
  let voice_patterns := voices.map fun voice =>
    "sound(`\n" ++ generateDrumPattern voice.events ++ "`)" ++
      formatVoiceModifiers voice.punchcard_color voice.gain voice.pan
  "stack(\n  " ++ String.intercalate ",\n  " voice_patterns ++ ",\n)"

/-- The `max_bars` of `generate_drum_staff`:
`voices.iter().map(count_drum_bars).max().unwrap_or(0)`. -/
def maxDrumBars (voices : List DrumVoiceData) : Nat :=
  (voices.map fun voice => countDrumBars voice.events).foldr Nat.max 0

/-- `StrudelGenerator::generate_drum_staff`. -/
def generateDrumStaff (voices : List DrumVoiceData) (tempo : Option Tempo) : String :=
  match voices with
  | [] => noDrumHitsStr
  | [voice] =>
      generateSingleDrumVoiceWithOptions voice.events tempo
        voice.punchcard_color voice.gain voice.pan
  | _ =>
      let stacked := stackedText voices
      if tempo.isSome then
        let max_bars := maxDrumBars voices
        if max_bars > 0 then stacked ++ cpmCall max_bars else stacked
      else stacked

/-- `StrudelGenerator::generate_staff`. -/
def generateStaff (staff : Staff) (tempo : Option Tempo) : String :=
  match staff.content with
  | .notes events =>
      generatePitchedStaffWithOptions events tempo
        staff.punchcard_color staff.gain staff.pan
  | .drums voices => generateDrumStaff voices tempo

/-- `StrudelGenerator::generate_multi`. -/
def generateMulti (staves : List Staff) (tempo : Option Tempo) : String :=
  if staves.isEmpty then "// No staves to convert"
  else String.intercalate "\n\n" (staves.map fun staff => "$: " ++ generateStaff staff tempo)

/-! ## Agreement of the bar counters with the pattern generators -/

theorem flushCountB_eq_flushCount (cur : List String) (n : Nat) :
    flushCountB (!cur.isEmpty) n = flushCount cur n := by
  cases cur <;> simp [flushCountB, flushCount]

/-- The standalone pitched bar counter and the pitched pattern generator
perform the same walk: same bar count, same remaining events, at every
fuel and from every state (`has_content` tracking the non-emptiness of
`current_bar`). -/
theorem countPitchedF_eq_genPitchedF :
    ∀ (f : Nat) (l : List PitchedEvent) (cur : List String),
      countPitchedF f l (!cur.isEmpty) =
        ((genPitchedF f l cur).2.1, (genPitchedF f l cur).2.2) := by
  intro f
  induction f with
  | zero =>
      intro l cur
      simp [countPitchedF, genPitchedF, flushCountB_eq_flushCount]
  | succ f ih =>
      intro l cur
      match l with
      | [] => simp [countPitchedF, genPitchedF, flushCountB_eq_flushCount]
      | .note n :: rest =>
          have h := ih rest (cur ++ [formatPitchedNote n])
          rw [show (cur ++ [formatPitchedNote n]).isEmpty = false by cases cur <;> rfl] at h
          simpa [countPitchedF, genPitchedF] using h
      | .rest d :: rest =>
          have h := ih rest (cur ++ [formatRest d])
          rw [show (cur ++ [formatRest d]).isEmpty = false by cases cur <;> rfl] at h
          simpa [countPitchedF, genPitchedF] using h
      | .barLine :: rest =>
          have h := ih rest []
          simp only [List.isEmpty_nil, Bool.not_true] at h
          simp [countPitchedF, genPitchedF, h, flushCountB_eq_flushCount]
      | .repeatStart c :: rest =>
          have h1 := ih rest []
          simp only [List.isEmpty_nil, Bool.not_true] at h1
          have h2 := ih (genPitchedF f rest []).2.2 []
          simp only [List.isEmpty_nil, Bool.not_true] at h2
          simp [countPitchedF, genPitchedF, h1, h2, flushCountB_eq_flushCount]
      | .repeatEnd :: rest =>
          simp [countPitchedF, genPitchedF, flushCountB_eq_flushCount]
      | .comment s :: rest =>
          simpa [countPitchedF, genPitchedF] using ih rest cur

/-- Drum counterpart of `countPitchedF_eq_genPitchedF`. -/
theorem countDrumF_eq_genDrumF :
    ∀ (f : Nat) (l : List DrumEvent) (cur : List String),
      countDrumF f l (!cur.isEmpty) =
        ((genDrumF f l cur).2.1, (genDrumF f l cur).2.2) := by
  intro f
  induction f with
  | zero =>
      intro l cur
      simp [countDrumF, genDrumF, flushCountB_eq_flushCount]
  | succ f ih =>
      intro l cur
      match l with
      | [] => simp [countDrumF, genDrumF, flushCountB_eq_flushCount]
      | .hit n :: rest =>
          have h := ih rest (cur ++ [formatDrumHit n])
          rw [show (cur ++ [formatDrumHit n]).isEmpty = false by cases cur <;> rfl] at h
          simpa [countDrumF, genDrumF] using h
      | .rest d :: rest =>
          have h := ih rest (cur ++ [formatRest d])
          rw [show (cur ++ [formatRest d]).isEmpty = false by cases cur <;> rfl] at h
          simpa [countDrumF, genDrumF] using h
      | .barLine :: rest =>
          have h := ih rest []
          simp only [List.isEmpty_nil, Bool.not_true] at h
          simp [countDrumF, genDrumF, h, flushCountB_eq_flushCount]
      | .repeatStart c :: rest =>
          have h1 := ih rest []
          simp only [List.isEmpty_nil, Bool.not_true] at h1
          have h2 := ih (genDrumF f rest []).2.2 []
          simp only [List.isEmpty_nil, Bool.not_true] at h2
          simp [countDrumF, genDrumF, h1, h2, flushCountB_eq_flushCount]
      | .repeatEnd :: rest =>
          simp [countDrumF, genDrumF, flushCountB_eq_flushCount]
      | .comment s :: rest =>
          simpa [countDrumF, genDrumF] using ih rest cur

/-- C10: for every pitched event sequence, the bar count returned by the
standalone bar counter `count_pitched_bars` (from index 0) equals the bar
count returned as the second component of
`generate_pitched_pattern_with_bars` (from index 0), so the `@`
multipliers and the cpm bar count are computed from the same number. -/
theorem c10_count_matches_generator_bars (events : List PitchedEvent) :
    countPitchedBars events = (generatePitchedPatternWithBars events).2 := by
  have h := countPitchedF_eq_genPitchedF events.length events []
  simp only [List.isEmpty_nil, Bool.not_true] at h
  simp [countPitchedBars, generatePitchedPatternWithBars, h]

/-! ## C1: emission of repeat groups -/

/-- The spec's emission formula for a repeat region: `[inner]!count` when
the inner region spans at most one bar, else `[[inner]!count]@N` with
`N = inner-bar-count * count`. -/
def repeatGroupText (inner : String) (innerBars count : Nat) : String :=
  if innerBars ≤ 1 then "[" ++ inner ++ "]!" ++ Nat.repr count
  else "[[" ++ inner ++ "]!" ++ Nat.repr count ++ "]@" ++ Nat.repr (innerBars * count)

theorem if_gt_one_comm {α : Type} (ib : Nat) (A B : α) :
    (if ib > 1 then A else B) = (if ib ≤ 1 then B else A) := by
  rcases le_or_lt ib 1 with h | h
  · rw [if_neg (Nat.not_lt.mpr h), if_pos h]
  · rw [if_pos h, if_neg (Nat.not_le.mpr h)]

/-- C1: on `RepeatStart(count)` (at a bar boundary), both pattern
generators recursively generate the sub-sequence up to the matching
`RepeatEnd`, obtaining its text and inner bar count, and emit the group
`[inner]!count` when the inner bar count is ≤ 1 and
`[[inner]!count]@(innerBars*count)` otherwise. -/
theorem c1_repeat_group_emission (count : Nat) (rest : List PitchedEvent)
    (drest : List DrumEvent) :
    (genPitchedF (PitchedEvent.repeatStart count :: rest).length
        (PitchedEvent.repeatStart count :: rest) []).1.head? =
      some (repeatGroupText (generatePitchedPatternWithBars rest).1
        (generatePitchedPatternWithBars rest).2 count) ∧
    (genDrumF (DrumEvent.repeatStart count :: drest).length
        (DrumEvent.repeatStart count :: drest) []).1.head? =
      some (repeatGroupText (generateDrumPatternWithBars drest).1
        (generateDrumPatternWithBars drest).2 count) := by
  constructor
  · show (genPitchedF (rest.length + 1) (.repeatStart count :: rest) []).1.head? = _
    rw [show genPitchedF (rest.length + 1) (.repeatStart count :: rest) [] =
        (let inner := genPitchedF rest.length rest []
         let innerText := String.intercalate "\n" inner.1
         let total_bars := inner.2.1 * count
         let grp :=
           if inner.2.1 > 1 then
             "[[" ++ innerText ++ "]!" ++ Nat.repr count ++ "]@" ++ Nat.repr total_bars
           else
             "[" ++ innerText ++ "]!" ++ Nat.repr count
         let cont := genPitchedF rest.length inner.2.2 []
         (flushBars [] (grp :: cont.1), flushCount [] (total_bars + cont.2.1),
          cont.2.2)) from rfl]
    simp only [flushBars, List.isEmpty_nil, if_pos, List.head?_cons,
      generatePitchedPatternWithBars, repeatGroupText]
    rw [if_gt_one_comm]
  · show (genDrumF (drest.length + 1) (.repeatStart count :: drest) []).1.head? = _
    rw [show genDrumF (drest.length + 1) (.repeatStart count :: drest) [] =
        (let inner := genDrumF drest.length drest []
         let innerText := String.intercalate "\n" inner.1
         let total_bars := inner.2.1 * count
         let grp :=
           if inner.2.1 > 1 then
             "[[" ++ innerText ++ "]!" ++ Nat.repr count ++ "]@" ++ Nat.repr total_bars
           else
             "[" ++ innerText ++ "]!" ++ Nat.repr count
         let cont := genDrumF drest.length inner.2.2 []
         (flushBars [] (grp :: cont.1), flushCount [] (total_bars + cont.2.1),
          cont.2.2)) from rfl]
    simp only [flushBars, List.isEmpty_nil, if_pos, List.head?_cons,
      generateDrumPatternWithBars, repeatGroupText]
    rw [if_gt_one_comm]

/-! ## C2: bar count of nested repeats -/

/-- Repeat-marker test on a pitched event. -/
def PitchedEvent.isRepeatMarker : PitchedEvent → Bool
  | .repeatStart _ => true
  | .repeatEnd => true
  | _ => false

/-- An event list containing no repeat markers (a plain body of notes,
rests, bar lines and comments). -/
def repeatMarkerFree (events : List PitchedEvent) : Prop :=
  events.all (fun e => ! e.isRepeatMarker) = true

/-- On a marker-free body, `count_pitched_bars` never recurses, so its
result does not depend on the fuel as long as the fuel covers the body. -/
theorem countPitchedF_markerFree_fuel (body : List PitchedEvent)
    (hfree : repeatMarkerFree body) :
    ∀ f g h, body.length ≤ f → body.length ≤ g →
      countPitchedF f body h = countPitchedF g body h := by
  induction body with
  | nil =>
      intro f g h _ _
      cases f <;> cases g <;> simp [countPitchedF]
  | cons e tl ih =>
      intro f g h hf hg
      match f, g with
      | 0, _ => simp at hf
      | _ + 1, 0 => simp at hg
      | f + 1, g + 1 =>
        have hfree' : repeatMarkerFree tl := by
          simp only [repeatMarkerFree, List.all_cons, Bool.and_eq_true] at hfree
          exact hfree.2
        have hf' : tl.length ≤ f := by simp at hf; omega
        have hg' : tl.length ≤ g := by simp at hg; omega
        cases e with
        | note n => simpa [countPitchedF] using ih hfree' f g true hf' hg'
        | rest d => simpa [countPitchedF] using ih hfree' f g true hf' hg'
        | barLine => simp [countPitchedF, ih hfree' f g false hf' hg']
        | comment s => simpa [countPitchedF] using ih hfree' f g h hf' hg'
        | repeatStart c =>
            simp [repeatMarkerFree, PitchedEvent.isRepeatMarker] at hfree
        | repeatEnd =>
            simp [repeatMarkerFree, PitchedEvent.isRepeatMarker] at hfree

/-- Walking `body ++ RepeatEnd :: t` over a marker-free `body` counts the
same bars as walking `body` alone (the `RepeatEnd` break performs the same
trailing flush as the end of the list) and stops right before `t`. -/
theorem countPitchedF_append_repeatEnd (body : List PitchedEvent)
    (hfree : repeatMarkerFree body) :
    ∀ f t h, body.length < f →
      countPitchedF f (body ++ .repeatEnd :: t) h = ((countPitchedF f body h).1, t) := by
  induction body with
  | nil =>
      intro f t h hf
      match f with
      | f + 1 => simp [countPitchedF]
  | cons e tl ih =>
      intro f t h hf
      match f with
      | 0 => simp at hf
      | f + 1 =>
        have hfree' : repeatMarkerFree tl := by
          simp only [repeatMarkerFree, List.all_cons, Bool.and_eq_true] at hfree
          exact hfree.2
        have hf' : tl.length < f := by simp at hf; omega
        cases e with
        | note n => simpa [countPitchedF] using ih hfree' f t true hf'
        | rest d => simpa [countPitchedF] using ih hfree' f t true hf'
        | barLine => simp [countPitchedF, ih hfree' f t false hf']
        | comment s => simpa [countPitchedF] using ih hfree' f t h hf'
        | repeatStart c =>
            simp [repeatMarkerFree, PitchedEvent.isRepeatMarker] at hfree
        | repeatEnd =>
            simp [repeatMarkerFree, PitchedEvent.isRepeatMarker] at hfree

/-- C2: for an event sequence `RepeatStart(O), RepeatStart(I), body,
RepeatEnd, RepeatEnd` whose body contains no repeat markers and spans `B`
bars, `count_pitched_bars` computes `B * I * O`. -/
theorem c2_nested_repeat_bar_count (body : List PitchedEvent) (I O : Nat)
    (hfree : repeatMarkerFree body) :
    countPitchedBars
        (.repeatStart O :: .repeatStart I :: (body ++ [.repeatEnd, .repeatEnd])) =
      countPitchedBars body * I * O := by
  have hlen :
      (PitchedEvent.repeatStart O :: .repeatStart I ::
        (body ++ [.repeatEnd, .repeatEnd])).length = body.length + 4 := by
    simp
  rw [countPitchedBars, hlen]
  have hbody : countPitchedF (body.length + 2) (body ++ [.repeatEnd, .repeatEnd]) false
      = ((countPitchedF body.length body false).1, [.repeatEnd]) := by
    rw [show (body ++ [PitchedEvent.repeatEnd, .repeatEnd])
        = body ++ .repeatEnd :: [.repeatEnd] from rfl]
    rw [countPitchedF_append_repeatEnd body hfree (body.length + 2) [.repeatEnd] false
      (by omega)]
    rw [countPitchedF_markerFree_fuel body hfree (body.length + 2) body.length false
      (by omega) (by omega)]
  have hinner : countPitchedF (body.length + 3)
      (.repeatStart I :: (body ++ [.repeatEnd, .repeatEnd])) false
      = ((countPitchedF body.length body false).1 * I, []) := by
    rw [show countPitchedF (body.length + 3)
        (.repeatStart I :: (body ++ [.repeatEnd, .repeatEnd])) false =
        (let inner := countPitchedF (body.length + 2) (body ++ [.repeatEnd, .repeatEnd]) false
         let cont := countPitchedF (body.length + 2) inner.2 false
         (flushCountB false (inner.1 * I + cont.1), cont.2)) from rfl]
    rw [hbody]
    simp [countPitchedF, flushCountB]
  rw [show countPitchedF (body.length + 4)
      (.repeatStart O :: .repeatStart I :: (body ++ [.repeatEnd, .repeatEnd])) false =
      (let inner := countPitchedF (body.length + 3)
        (.repeatStart I :: (body ++ [.repeatEnd, .repeatEnd])) false
       let cont := countPitchedF (body.length + 3) inner.2 false
       (flushCountB false (inner.1 * O + cont.1), cont.2)) from rfl]
  rw [hinner]
  simp [countPitchedF, flushCountB, countPitchedBars]

/-- Witness for C2 at `B = 2` (body `c'4 | d'4`), `I = 2`, `O = 3`. -/
theorem c2_nested_repeat_bar_count_witness :
    repeatMarkerFree [PitchedEvent.note (.mk 'c' 4 none 4 60 none), .barLine,
      .note (.mk 'd' 4 none 4 62 none)] ∧
    countPitchedBars
        (.repeatStart 3 :: .repeatStart 2 ::
          ([PitchedEvent.note (.mk 'c' 4 none 4 60 none), .barLine,
            .note (.mk 'd' 4 none 4 62 none)] ++ [.repeatEnd, .repeatEnd])) =
      countPitchedBars [PitchedEvent.note (.mk 'c' 4 none 4 60 none), .barLine,
        .note (.mk 'd' 4 none 4 62 none)] * 2 * 3 :=
  ⟨rfl, c2_nested_repeat_bar_count _ 2 3 rfl⟩

/-! ## C3: the tempo-to-cycle expression and when it is appended -/

theorem cpmCall_length_pos (b : Nat) : 0 < (cpmCall b).length := by
  rw [cpmCall, String.length_append, String.length_append]
  have h : ("\n  .cpm(" : String).length = 8 := by decide
  omega

theorem append_cpmCall_ne_self (s : String) (b : Nat) : s ++ cpmCall b ≠ s := by
  intro h
  have hl := congrArg String.length h
  rw [String.length_append] at hl
  have := cpmCall_length_pos b
  omega

theorem paren_mem_cpmCall (b : Nat) : '(' ∈ (cpmCall b).data := by
  rw [cpmCall, String.data_append, String.data_append]
  exact List.mem_append_left _ (List.mem_append_left _ (by decide))

theorem noNotesStr_ne_append_cpmCall (s : String) (b : Nat) :
    noNotesStr ≠ s ++ cpmCall b := by
  intro h
  have hd := congrArg String.data h
  rw [String.data_append] at hd
  have hp : '(' ∈ noNotesStr.data := hd ▸ List.mem_append_right _ (paren_mem_cpmCall b)
  exact absurd hp (by decide)

theorem noDrumHitsStr_ne_append_cpmCall (s : String) (b : Nat) :
    noDrumHitsStr ≠ s ++ cpmCall b := by
  intro h
  have hd := congrArg String.data h
  rw [String.data_append] at hd
  have hp : '(' ∈ noDrumHitsStr.data := hd ▸ List.mem_append_right _ (paren_mem_cpmCall b)
  exact absurd hp (by decide)

theorem generateDrumStaff_multi (v₀ v₁ : DrumVoiceData)
    (voices : List DrumVoiceData) (tempo : Option Tempo) :
    generateDrumStaff (v₀ :: v₁ :: voices) tempo =
      (let stacked := stackedText (v₀ :: v₁ :: voices)
       if tempo.isSome then
         let max_bars := maxDrumBars (v₀ :: v₁ :: voices)
         if max_bars > 0 then stacked ++ cpmCall max_bars else stacked
       else stacked) := rfl

/-- C3 (amended): the tempo-to-cycle expression is the symbolic string
`tempo/4/<bars>`; for a pitched staff (resp. a single-voice percussive
staff) it is appended to the output exactly when the bar count is
positive, a tempo was supplied, and the staff holds at least one note
(resp. hit); for a multi-voice percussive staff it is appended exactly
when a tempo was supplied and the maximum bar count over the voices is
positive, and that maximum is the bar count used. -/
theorem c3_cpm_expression_appended :
    (∀ bars, formatCpmExpression bars = "tempo/4/" ++ Nat.repr bars) ∧
    (∀ events tempo pc g p,
      (generatePitchedStaffWithOptions events (some tempo) pc g p =
          pitchedBase events pc g p ++ cpmCall (countPitchedBars events) ↔
        0 < countPitchedBars events ∧ (pitchedNotesOf events).isEmpty = false)) ∧
    (∀ events pc g p,
      generatePitchedStaffWithOptions events none pc g p ≠
        pitchedBase events pc g p ++ cpmCall (countPitchedBars events)) ∧
    (∀ events tempo pc g p,
      (generateSingleDrumVoiceWithOptions events (some tempo) pc g p =
          singleDrumBase events pc g p ++ cpmCall (countDrumBars events) ↔
        0 < countDrumBars events ∧ (drumHitsOf events).isEmpty = false)) ∧
    (∀ events pc g p,
      generateSingleDrumVoiceWithOptions events none pc g p ≠
        singleDrumBase events pc g p ++ cpmCall (countDrumBars events)) ∧
    (∀ v₀ v₁ voices tempo,
      (generateDrumStaff (v₀ :: v₁ :: voices) (some tempo) =
          stackedText (v₀ :: v₁ :: voices) ++
            cpmCall (maxDrumBars (v₀ :: v₁ :: voices)) ↔
        0 < maxDrumBars (v₀ :: v₁ :: voices)) ∧
      generateDrumStaff (v₀ :: v₁ :: voices) none ≠
        stackedText (v₀ :: v₁ :: voices) ++
          cpmCall (maxDrumBars (v₀ :: v₁ :: voices))) := by
  refine ⟨fun _ => rfl, ?_, ?_, ?_, ?_, ?_⟩
  · intro events tempo pc g p
    rw [generatePitchedStaffWithOptions]
    cases hn : (pitchedNotesOf events).isEmpty with
    | true =>
        simp only [hn, if_true]
        constructor
        · intro h; exact absurd h (noNotesStr_ne_append_cpmCall _ _)
        · rintro ⟨-, h⟩; cases h
    | false =>
        simp only [hn, if_false, Option.isSome_some, if_true]
        by_cases hb : 0 < countPitchedBars events
        · simp only [if_pos hb]
          exact ⟨fun _ => ⟨hb, trivial⟩, fun _ => rfl⟩
        · simp only [if_neg hb]
          constructor
          · intro h; exact absurd h.symm (append_cpmCall_ne_self _ _)
          · rintro ⟨h, -⟩; exact absurd h hb
  · intro events pc g p
    rw [generatePitchedStaffWithOptions]
    cases hn : (pitchedNotesOf events).isEmpty with
    | true => simpa only [hn, if_true] using noNotesStr_ne_append_cpmCall _ _
    | false =>
        simp only [hn, if_false, Option.isSome_none, Bool.false_eq_true]
        intro h; exact absurd h.symm (append_cpmCall_ne_self _ _)
  · intro events tempo pc g p
    rw [generateSingleDrumVoiceWithOptions]
    cases hn : (drumHitsOf events).isEmpty with
    | true =>
        simp only [hn, if_true]
        constructor
        · intro h; exact absurd h (noDrumHitsStr_ne_append_cpmCall _ _)
        · rintro ⟨-, h⟩; cases h
    | false =>
        simp only [hn, if_false, Option.isSome_some, if_true]
        by_cases hb : 0 < countDrumBars events
        · simp only [if_pos hb]
          exact ⟨fun _ => ⟨hb, trivial⟩, fun _ => rfl⟩
        · simp only [if_neg hb]
          constructor
          · intro h; exact absurd h.symm (append_cpmCall_ne_self _ _)
          · rintro ⟨h, -⟩; exact absurd h hb
  · intro events pc g p
    rw [generateSingleDrumVoiceWithOptions]
    cases hn : (drumHitsOf events).isEmpty with
    | true => simpa only [hn, if_true] using noDrumHitsStr_ne_append_cpmCall _ _
    | false =>
        simp only [hn, if_false, Option.isSome_none, Bool.false_eq_true]
        intro h; exact absurd h.symm (append_cpmCall_ne_self _ _)
  · intro v₀ v₁ voices tempo
    constructor
    · rw [generateDrumStaff_multi]
      simp only [Option.isSome_some, if_true]
      by_cases hb : 0 < maxDrumBars (v₀ :: v₁ :: voices)
      · simp only [if_pos hb]
        exact ⟨fun _ => hb, fun _ => trivial⟩
      · simp only [if_neg hb]
        constructor
        · intro h; exact absurd h.symm (append_cpmCall_ne_self _ _)
        · intro h; exact absurd h hb
    · rw [generateDrumStaff_multi]
      simp only [Option.isSome_none, Bool.false_eq_true, if_false]
      intro h; exact absurd h.symm (append_cpmCall_ne_self _ _)

/-- Witness for C3 applied at concrete staves: a one-note pitched staff
with tempo gets `tempo/4/1` appended; a two-voice percussive staff with
voices of 1 and 2 bars uses the larger bar count 2. -/
theorem c3_cpm_expression_appended_witness :
    generatePitchedStaffWithOptions [PitchedEvent.note (.mk 'c' 4 none 4 60 none)]
        (some ⟨4, 120⟩) none none none =
      pitchedBase [PitchedEvent.note (.mk 'c' 4 none 4 60 none)] none none none ++
        cpmCall 1 ∧
    generateDrumStaff
        [⟨[DrumEvent.hit ⟨"bd", 4⟩], none, none, none⟩,
         ⟨[DrumEvent.hit ⟨"hh", 4⟩, .barLine, .hit ⟨"hh", 4⟩], none, none, none⟩]
        (some ⟨4, 120⟩) =
      stackedText
        [⟨[DrumEvent.hit ⟨"bd", 4⟩], none, none, none⟩,
         ⟨[DrumEvent.hit ⟨"hh", 4⟩, .barLine, .hit ⟨"hh", 4⟩], none, none, none⟩] ++
        cpmCall 2 := by
  constructor
  · exact (c3_cpm_expression_appended.2.1 _ ⟨4, 120⟩ none none none).mpr (by decide)
  · exact ((c3_cpm_expression_appended.2.2.2.2.2 _ _ [] ⟨4, 120⟩).1).mpr (by decide)

/-- C3 counterexample: the pitched staff `r4 |` has bar count 1 and a
tempo is supplied, yet the generated output is the bare
`// No notes to convert` placeholder — no `.cpm(...)` is appended. -/
theorem c3_counterexample_rest_only_staff :
    countPitchedBars [PitchedEvent.rest 4, .barLine] = 1 ∧
    generatePitchedStaffWithOptions [PitchedEvent.rest 4, .barLine]
        (some ⟨4, 120⟩) none none none = noNotesStr ∧
    noNotesStr ≠
      pitchedBase [PitchedEvent.rest 4, .barLine] none none none ++
        cpmCall (countPitchedBars [PitchedEvent.rest 4, .barLine]) := by
  refine ⟨rfl, rfl, noNotesStr_ne_append_cpmCall _ _⟩

/-! ## Duration table and rest rendering (supporting facts for C6) -/

/-- The exact entries of the duration-to-weight table. -/
theorem formatWeight_table_exact :
    formatWeight 1 = some "4" ∧ formatWeight 2 = some "2" ∧
    formatWeight 4 = none ∧ formatWeight 8 = some "0.5" ∧
    formatWeight 16 = some "0.25" :=
  ⟨rfl, rfl, rfl, rfl, rfl⟩

/-- A rest of positive duration `d` renders as `max 1 (4 / d)` tilde
placeholders joined by spaces. -/
theorem formatRest_quarter_slots (d : Nat) (_hd : 0 < d) :
    formatRest d = String.intercalate " " (List.replicate (max 1 (4 / d)) "~") := by
  rw [formatRest]
  by_cases h : 4 / d ≤ 1
  · have hm : max 1 (4 / d) = 1 := by omega
    rw [if_pos h, hm]
    rfl
  · have hm : max 1 (4 / d) = 4 / d := by omega
    rw [if_neg h, hm]

/-- A whole-note rest renders as four tilde tokens. -/
theorem formatRest_whole_note : formatRest 1 = "~ ~ ~ ~" := rfl

/-! ## Character classes and scanning primitives

The source uses Rust `regex` patterns; each pattern is transcribed below
as a hand-written matcher over `List Char`.  A matcher consumes a prefix
at the current position and returns its captures together with the
remaining suffix.  Greedy repetition without backtracking is used; at
every place this is applied, the repeated class is disjoint from what may
legally follow, so it agrees with the regex engine on the inputs below. -/

/-- `[0-9A-Za-z_]`, the ASCII core of regex `\w`. -/
def isWordChar (c : Char) : Bool :=
  c.isAlphanum || c = '_'

/-- `[a-zA-Z_]`, the leading identifier class of the source's macro-name
patterns. -/
def isIdentStart (c : Char) : Bool :=
  c.isAlpha || c = '_'

/-- `[a-zA-Z0-9_]`, the trailing identifier class. -/
def isIdentChar (c : Char) : Bool :=
  c.isAlphanum || c = '_'

/-- Numeric value of a digit run. -/
def digitsToNat (ds : List Char) : Nat :=
  ds.foldl (fun n c => n * 10 + (c.toNat - '0'.toNat)) 0

/-- Rust `str::parse::<u32>()` on a digit run: fails exactly on `u32`
overflow. -/
def parseU32 (ds : List Char) : Option Nat :=
  if digitsToNat ds < 2 ^ 32 then some (digitsToNat ds) else none

/-- `parse::<u32>().unwrap_or(dflt)` on a digit run. -/
def parseU32Or (ds : List Char) (dflt : Nat) : Nat :=
  (parseU32 ds).getD dflt

/-- `parse::<usize>().unwrap_or(dflt)` on a digit run (64-bit `usize`). -/
def parseUsizeOr (ds : List Char) (dflt : Nat) : Nat :=
  if digitsToNat ds < 2 ^ 64 then digitsToNat ds else dflt

/-- Match a literal. -/
def matchLit : List Char → List Char → Option (List Char)
  | [], l => some l
  | p :: ps, c :: cs => if c = p then matchLit ps cs else none
  | _ :: _, [] => none

/-- One-or-more characters of a class (greedy): `(run, rest)`. -/
def takeWhile1 (p : Char → Bool) (l : List Char) : Option (List Char × List Char) :=
  let run := l.takeWhile p
  if run.isEmpty then none else some (run, l.dropWhile p)

/-- Zero-or-more characters of a class (greedy). -/
def takeWhile0 (p : Char → Bool) (l : List Char) : List Char × List Char :=
  (l.takeWhile p, l.dropWhile p)

/-- Leftmost-match search: text before the first position where `m`
succeeds, with `m`'s result there (the position semantics of
`Regex::find` / `Regex::captures`). -/
def findSplit {α : Type} (m : List Char → Option α) : List Char → Option (List Char × α)
  | [] => (m []).map fun a => ([], a)
  | c :: r =>
    match m (c :: r) with
    | some a => some ([], a)
    | none => (findSplit m r).map fun pa => (c :: pa.1, pa.2)

/-- All non-overlapping matches, leftmost first, resuming after each
match's end (the semantics of `captures_iter`).  Every matcher used with
this consumes at least one character, so fuel `l.length + 1` is exact. -/
def allMatches {α : Type} (m : List Char → Option (α × List Char)) :
    Nat → List Char → List (α × List Char)
  | 0, _ => []
  | _ + 1, [] =>
      match m [] with
      | some (a, rest) => [(a, rest)]
      | none => []
  | f + 1, c :: r =>
      match m (c :: r) with
      | some (a, rest) => (a, rest) :: allMatches m f rest
      | none => allMatches m f r

/-- Text before the last occurrence of `pat` and the text after it
(`str::rfind` splitting). -/
def rfindSplit (pat : List Char) : List Char → Option (List Char × List Char)
  | [] => (matchLit pat []).map fun rest => ([], rest)
  | c :: r =>
    match rfindSplit pat r with
    | some (pre, post) => some (c :: pre, post)
    | none => (matchLit pat (c :: r)).map fun rest => ([], rest)

/-- Split at the first occurrence of a character: `(before, after)`,
both excluding it (`str::find(char)` splitting). -/
def breakAt (p : Char) : List Char → Option (List Char × List Char)
  | [] => none
  | c :: r =>
    if c = p then some ([], r)
    else (breakAt p r).map fun pr => (c :: pr.1, pr.2)

/-- `[a-zA-Z_][a-zA-Z0-9_]*` (greedy): `(name, rest)`. -/
def matchIdent : List Char → Option (List Char × List Char)
  | [] => none
  | c :: r =>
    if isIdentStart c then
      some (c :: (takeWhile0 isIdentChar r).1, (takeWhile0 isIdentChar r).2)
    else none

/-- Rust `str::trim` (ASCII whitespace model). -/
def trimChars (l : List Char) : List Char :=
  ((l.dropWhile Char.isWhitespace).reverse.dropWhile Char.isWhitespace).reverse

/-- `LilyPondParser::extract_braced_content`: text strictly between the
position just after an opening `{` and its matching `}`, plus the text
after that `}`.  The source starts at depth 1 and returns the content
when depth returns to 0; here `depth` counts the nested `{` seen so far
(source depth minus one). -/
def extractBraced : List Char → Nat → Option (List Char × List Char)
  | [], _ => none
  | c :: r, depth =>
    if c = '{' then (extractBraced r (depth + 1)).map fun p => (c :: p.1, p.2)
    else if c = '}' then
      if depth = 0 then some ([], r)
      else (extractBraced r (depth - 1)).map fun p => (c :: p.1, p.2)
    else (extractBraced r depth).map fun p => (c :: p.1, p.2)

/-! ## Repeat marking -/

/-- Matcher for `\\repeat\s+\w+\s+(\d+)\s*\{`: returns the count digits
and the text after the `{`. -/
def matchRepeatDirective (l : List Char) : Option (List Char × List Char) := do
  let l ← matchLit "\\repeat".data l
  let (_, l) ← takeWhile1 Char.isWhitespace l
  let (_, l) ← takeWhile1 isWordChar l
  let (_, l) ← takeWhile1 Char.isWhitespace l
  let (ds, l) ← takeWhile1 Char.isDigit l
  let (_, l) := takeWhile0 Char.isWhitespace l
  let l ← matchLit "\x7b".data l
  pure (ds, l)

/-- One rewrite step of `mark_repeats`: locate the first repeat
directive, take its braced body, splice
`' __REPEAT_START_<count>__ ' body ' __REPEAT_END__ '` in place of the
whole construct.  When the brace never closes the source keeps
`end = brace_start + 1`, yielding an empty body and dropping one
character after the `{` (it panics when the `{` ends the text; that
slice arithmetic is modelled as dropping from an empty suffix). -/
def markRepeatsStep (l : List Char) : Option (List Char) := do
  let (pre, ds, after) ←
    (findSplit matchRepeatDirective l).map fun pa => (pa.1, pa.2.1, pa.2.2)
  let (content, rest) :=
    match extractBraced after 0 with
    | some p => p
    | none => ([], after.drop 1)
  pure (pre ++ " __REPEAT_START_".data ++ (Nat.repr (parseUsizeOr ds 1)).data ++
    "__ ".data ++ content ++ " __REPEAT_END__ ".data ++ rest)

/-- `LilyPondParser::mark_repeats` loop body, fuel-indexed.  Each step
removes exactly one `\repeat …{` occurrence and introduces none (the
sentinels contain no backslash), so the number of occurrences — at most
the text length — bounds the iterations. -/
def markRepeatsF : Nat → List Char → List Char
  | 0, l => l
  | f + 1, l =>
    match markRepeatsStep l with
    | some l' => markRepeatsF f l'
    | none => l

/-- `LilyPondParser::mark_repeats`. -/
def markRepeats (l : List Char) : List Char :=
  markRepeatsF l.length l

/-! ## Macro table and resolver -/

/-- `HashMap::insert` on the macro table (replace or append). -/
def tableInsert (t : List (List Char × VariableKind)) (k : List Char)
    (v : VariableKind) : List (List Char × VariableKind) :=
  (t.filter fun p => p.1 != k) ++ [(k, v)]

/-- `HashMap::get` on the macro table. -/
def tableGet (t : List (List Char × VariableKind)) (k : List Char) :
    Option VariableKind :=
  (t.find? fun p => p.1 == k).map (·.2)

/-- Matcher for `(?m)^([a-zA-Z_][a-zA-Z0-9_]*)\s*=\s*\{` (at a line
start): `(name, text after the brace)`. -/
def matchVarDef (l : List Char) : Option (List Char × List Char) := do
  let (name, l) ← matchIdent l
  let (_, l) := takeWhile0 Char.isWhitespace l
  let l ← matchLit "=".data l
  let (_, l) := takeWhile0 Char.isWhitespace l
  let l ← matchLit "\x7b".data l
  pure (name, l)

/-- Matcher for `(?m)^([a-zA-Z_][a-zA-Z0-9_]*)\s*=\s*\\drummode\s*\{`. -/
def matchDrumVarDef (l : List Char) : Option (List Char × List Char) := do
  let (name, l) ← matchIdent l
  let (_, l) := takeWhile0 Char.isWhitespace l
  let l ← matchLit "=".data l
  let (_, l) := takeWhile0 Char.isWhitespace l
  let l ← matchLit "\\drummode".data l
  let (_, l) := takeWhile0 Char.isWhitespace l
  let l ← matchLit "\x7b".data l
  pure (name, l)

/-- All line-anchored matches (`(?m)^…`), leftmost first, resuming after
each match end; a position is a line start when it is position 0 or
preceded by a newline.  Fuel `l.length` bounds the scan (every step
consumes at least one character). -/
def lineAnchoredMatches {α : Type} (m : List Char → Option (α × List Char)) :
    Nat → List Char → Bool → List (α × List Char)
  | 0, _, _ => []
  | _ + 1, [], atStart =>
      if atStart then
        match m [] with
        | some (a, rest) => [(a, rest)]
        | none => []
      else []
  | f + 1, c :: r, atStart =>
      if atStart then
        match m (c :: r) with
        | some (a, rest) => (a, rest) :: lineAnchoredMatches m f rest false
        | none => lineAnchoredMatches m f r (c = '\n')
      else lineAnchoredMatches m f r (c = '\n')

/-- `LilyPondParser::parse_variables`: record `name = { … }` bodies as
melodic and `name = \drummode { … }` bodies as percussive, the drummode
pass second (its inserts win on a name collision). -/
def parseVariables (code : List Char) : List (List Char × VariableKind) :=
  let t₁ := (lineAnchoredMatches matchVarDef (code.length + 1) code true).foldl
    (fun t pr =>
      match extractBraced pr.2 0 with
      | some (content, _) => tableInsert t pr.1 (.pitched content)
      | none => t) []
  (lineAnchoredMatches matchDrumVarDef (code.length + 1) code true).foldl
    (fun t pr =>
      match extractBraced pr.2 0 with
      | some (content, _) => tableInsert t pr.1 (.drums content)
      | none => t) t₁

/-- One `replace_all` pass of `resolve_variables` over
`\\([a-zA-Z_][a-zA-Z0-9_]*)`, fuel-indexed (each step consumes at least
one character, so fuel = length is exact): the rewritten text and the
`changed` flag. -/
def resolvePassF (vars : List (List Char × VariableKind)) :
    Nat → List Char → List Char × Bool
  | 0, l => (l, false)
  | _ + 1, [] => ([], false)
  | f + 1, c :: r =>
    if c = '\\' then
      match matchIdent r with
      | some (name, rest) =>
          match tableGet vars name with
          | some (.pitched body) =>
              let t := resolvePassF vars f rest
              (body ++ t.1, true)
          | some (.drums body) =>
              let t := resolvePassF vars f rest
              (body ++ t.1, true)
          | none =>
              let t := resolvePassF vars f rest
              ('\\' :: name ++ t.1, t.2)
      | none =>
          let t := resolvePassF vars f r
          ('\\' :: t.1, t.2)
    else
      let t := resolvePassF vars f r
      (c :: t.1, t.2)

/-- One `replace_all` pass of `resolve_variables`. -/
def resolvePass (vars : List (List Char × VariableKind)) (l : List Char) :
    List Char × Bool :=
  resolvePassF vars l.length l

/-- The fixpoint loop of `resolve_variables`, fuel-indexed.  The source
loops with no bound and diverges on cyclic macro references (claim C8);
on acyclic tables the reference depth is at most the table size, so
`vars.length + 1` passes reach the fixpoint. -/
def resolveVariablesF (vars : List (List Char × VariableKind)) :
    Nat → List Char → List Char
  | 0, content => content
  | f + 1, content =>
    let r := resolvePass vars content
    if r.2 then resolveVariablesF vars f r.1 else r.1

/-- `LilyPondParser::resolve_variables` (see `resolveVariablesF` for the
treatment of the source's unbounded loop). -/
def resolveVariables (content : List Char)
    (vars : List (List Char × VariableKind)) : List Char :=
  resolveVariablesF vars (vars.length + 1) content

/-- Matcher for a macro reference `\\([a-zA-Z_][a-zA-Z0-9_]*)`. -/
def matchVarRef : List Char → Option (List Char × List Char)
  | [] => none
  | c :: r => if c = '\\' then matchIdent r else none

/-- All `\name` captures of a text, in order. -/
def varRefsOf (l : List Char) : List (List Char) :=
  (allMatches matchVarRef (l.length + 1) l).map (·.1)

/-- `LilyPondParser::is_drum_content`: some directly referenced macro is
percussive. -/
def isDrumContent (content : List Char)
    (vars : List (List Char × VariableKind)) : Bool :=
  (varRefsOf content).any fun name =>
    match tableGet vars name with
    | some (.drums _) => true
    | _ => false

/-! ## Comment marking, tokenizing and token parsing -/

/-- Matcher for `(?m)%\s*@strudel-of-lilypond@\s+comment\s+(.+)$`:
captures the comment text (greedy run of non-newline characters up to the
line end).  The regex corner where the text after `comment` is pure
whitespace (where backtracking would surrender part of the `\s+` run) is
not modelled; no input below exercises it. -/
def matchCommentDirective (l : List Char) : Option (List Char × List Char) := do
  let l ← matchLit "%".data l
  let (_, l) := takeWhile0 Char.isWhitespace l
  let l ← matchLit "@strudel-of-lilypond@".data l
  let (_, l) ← takeWhile1 Char.isWhitespace l
  let l ← matchLit "comment".data l
  let (_, l) ← takeWhile1 Char.isWhitespace l
  let (txt, l) ← takeWhile1 (fun c => c != '\n') l
  pure (txt, l)

/-- `LilyPondParser::mark_comments` (`replace_all` scan, fuel = length +
1): each comment directive becomes `__COMMENT_<text>__` with spaces
encoded as `'\x01'`. -/
def markCommentsF : Nat → List Char → List Char
  | 0, l => l
  | _ + 1, [] => []
  | f + 1, c :: r =>
    match matchCommentDirective (c :: r) with
    | some (txt, rest) =>
        "__COMMENT_".data ++ (txt.map fun ch => if ch = ' ' then '\x01' else ch) ++
          "__".data ++ markCommentsF f rest
    | none => c :: markCommentsF f r

/-- `LilyPondParser::mark_comments`. -/
def markComments (sect : List Char) : List Char :=
  markCommentsF (sect.length + 1) sect

/-- `LilyPondParser::tokenize` inner loop: `current` is the pending
token, the flag is `in_chord`.  The source pushes trimmed tokens and
finally filters out empties; here possibly-empty trimmed tokens are
pushed and the same final filter applies. -/
def tokenizeAux : List Char → List Char → Bool → List (List Char)
  | [], current, _ => [trimChars current]
  | c :: r, current, in_chord =>
    if c = '<' then trimChars current :: tokenizeAux r ['<'] true
    else if c = '>' then tokenizeAux r (current ++ ['>']) false
    else if c.isWhitespace then
      if in_chord then tokenizeAux r (current ++ [' ']) in_chord
      else if current.isEmpty then tokenizeAux r current in_chord
      else trimChars current :: tokenizeAux r [] in_chord
    else tokenizeAux r (current ++ [c]) in_chord

/-- `LilyPondParser::tokenize`. -/
def tokenize (sect : List Char) : List (List Char) :=
  (tokenizeAux sect [] false).filter fun t => !t.isEmpty

/-- Token matcher for `^__REPEAT_START_(\d+)__$` with the source's
`parse::<u32>().unwrap_or(1)`. -/
def parseRepeatStartToken (t : List Char) : Option Nat := do
  let l ← matchLit "__REPEAT_START_".data t
  let (ds, l) ← takeWhile1 Char.isDigit l
  let l ← matchLit "__".data l
  if l.isEmpty then pure (parseU32Or ds 1) else none

/-- Token matcher for `^__COMMENT_(.+)__$`: the capture is everything
between the prefix and the final `__`, non-empty and newline-free. -/
def parseCommentToken (t : List Char) : Option (List Char) := do
  let l ← matchLit "__COMMENT_".data t
  let mid := l.take (l.length - 2)
  let suffix := l.drop (l.length - 2)
  if suffix = "__".data ∧ ¬mid.isEmpty ∧ mid.all (fun c => c != '\n') then
    pure mid
  else none

/-- `LilyPondParser::parse_rest` = `parse_drum_rest` (the source
duplicates the body): token starts with `r` but not `repeat`, digits give
the duration (default 4, `unwrap_or(4)` on overflow), and no alphabetic
character may remain after them. -/
def parseRestToken (token : List Char) : Option Nat :=
  let token := trimChars token
  match token with
  | [] => none
  | c :: after =>
    if c = 'r' ∧ ¬("repeat".data.isPrefixOf token) then
      let (ds, rest) := takeWhile0 Char.isDigit after
      if rest.any Char.isAlpha then none
      else some (if ds.isEmpty then 4 else parseU32Or ds 4)
    else none

/-- The fixed drum-name vocabulary of `parse_drum_hit` (source order,
including the duplicated `hh`). -/
def drumNames : List (List Char) :=
  ["bd".data, "sn".data, "hh".data, "hhc".data, "hho".data, "hhp".data, "hh".data,
   "cymc".data, "cymr".data, "cymca".data, "cymcb".data,
   "tom".data, "tomh".data, "tomm".data, "toml".data, "tomfl".data, "tomfh".data,
   "cb".data, "cl".data, "cp".data, "cr".data, "gui".data, "hc".data, "lc".data,
   "mc".data, "rc".data, "ride".data, "rb".data, "ss".data, "tamb".data,
   "tri".data, "whl".data, "whs".data,
   "pedalhihat".data, "hihat".data, "openhat".data, "closehat".data]

/-- `LilyPondParser::lilypond_to_strudel_drum`. -/
def lilypondToStrudelDrum (name : String) : String :=
  match name with
  | "sn" => "sd"
  | "hhc" => "hh"
  | "hho" => "oh"
  | "cymc" => "cr"
  | "cymr" => "rd"
  | "tomh" => "ht"
  | "tomm" => "mt"
  | "toml" => "lt"
  | "ss" => "rim"
  | _ => name

/-- `LilyPondParser::parse_drum_hit`. -/
def parseDrumHit (token : List Char) : Option DrumHit :=
  let token := trimChars token
  match token with
  | [] =>
      let name := ([] : List Char)
      if drumNames.contains name then
        some ⟨lilypondToStrudelDrum (String.mk name), 4⟩
      else none
  | c :: _ =>
    if c = '|' ∨ c = '\\' then none
    else
      let (name, rest) := takeWhile0 Char.isAlpha token
      if drumNames.contains name then
        let strudel_name := lilypondToStrudelDrum (String.mk name)
        let (ds, _) := takeWhile0 Char.isDigit rest
        some ⟨strudel_name, if ds.isEmpty then 4 else parseU32Or ds 4⟩
      else none

/-- The `note_to_midi` table of `LilyPondParser::new` (total with an
unreachable default: every call site first checks membership in
`abcdefg`). -/
def noteToMidi (c : Char) : Int :=
  match c with
  | 'c' => 0
  | 'd' => 2
  | 'e' => 4
  | 'f' => 5
  | 'g' => 7
  | 'a' => 9
  | 'b' => 11
  | _ => 0

/-- The octave-mark loop of `parse_single_note`: each `'` adds one, each
`,` subtracts one. -/
def takeOctaveMarks : List Char → Int × List Char
  | '\'' :: r =>
      let p := takeOctaveMarks r
      (p.1 + 1, p.2)
  | ',' :: r =>
      let p := takeOctaveMarks r
      (p.1 - 1, p.2)
  | l => (0, l)

/-- The accidental step of `parse_single_note`: a leading `i` or `e` is
consumed; only when an `s` follows is an accidental recorded. -/
def accidentalStep (cs : List Char) : Option String × List Char :=
  match cs with
  | 'i' :: cs' =>
      (match cs' with
       | 's' :: cs'' => ((some "is" : Option String), cs'')
       | _ => (none, cs'))
  | 'e' :: cs' =>
      (match cs' with
       | 's' :: cs'' => ((some "es" : Option String), cs'')
       | _ => (none, cs'))
  | _ => (none, cs)

/-- The consuming phases of `parse_single_note` on a trimmed token:
letter in `a`–`g`; accidental step; octave marks; duration digits;
trailing `.`/`~` marks.  Returns the letter, the accidental, the octave,
the duration digits and the unconsumed remainder. -/
def noteScan (tok : List Char) :
    Option (Char × Option String × Int × List Char × List Char) :=
  match tok with
  | [] => none
  | c :: cs =>
    if c.isAlpha ∧ "abcdefg".data.contains c then
      let acc := accidentalStep cs
      let om := takeOctaveMarks acc.2
      let dur := takeWhile0 Char.isDigit om.2
      let after_marks := dur.2.dropWhile fun ch => ch = '.' || ch = '~'
      some (c, acc.1, 3 + om.1, dur.1, after_marks)
    else none

/-- `LilyPondParser::parse_single_note`.  The source never returns an
error, so the `Result` wrapper is dropped. -/
def parseSingleNote (token : List Char) (override_duration : Option Nat) :
    Option Note :=
  let tok := trimChars token
  match noteScan tok with
  | none => none
  | some (c, accidental, octave, duration_str, after_marks) =>
    if after_marks.any Char.isAlpha then none
    else
      let duration :=
        match override_duration with
        | some d => d
        | none => if duration_str.isEmpty then 4 else parseU32Or duration_str 4
      let midi₀ : Int := noteToMidi c
      let midi₁ := midi₀ +
        (match accidental with
         | some a => if a = "is" then 1 else if a = "es" then -1 else 0
         | none => 0)
      let midi := midi₁ + (octave + 1) * 12
      some (.mk c octave accidental duration midi none)

/-- The duration scan of `parse_chord` after the closing `>`: digits
accumulate greedily, `.` and `~` are skipped without ending the scan, any
other character ends it. -/
def chordDurDigits : List Char → List Char
  | [] => []
  | c :: r =>
    if c.isDigit then c :: chordDurDigits r
    else if c ≠ '.' ∧ c ≠ '~' then []
    else chordDurDigits r

/-- Rust `str::split_whitespace`. -/
def splitWsAux : List Char → List Char → List (List Char)
  | [], acc => if acc.isEmpty then [] else [acc.reverse]
  | c :: r, acc =>
    if c.isWhitespace then
      if acc.isEmpty then splitWsAux r [] else acc.reverse :: splitWsAux r []
    else splitWsAux r (c :: acc)

/-- Rust `str::split_whitespace`. -/
def splitWs (l : List Char) : List (List Char) :=
  splitWsAux l []

/-- `LilyPondParser::parse_chord` (on a token that `parse_note` found to
start with `<`): one shared duration read after the `>` is applied to
every bracketed note; the first parsed note is the representative, the
others its chord partners. -/
def parseChord (token : List Char) : Option Note :=
  match breakAt '>' (token.drop 1) with
  | none => none
  | some (chord_content, after_bracket) =>
    let duration_str := chordDurDigits after_bracket
    let duration := if duration_str.isEmpty then 4 else parseU32Or duration_str 4
    let note_tokens := splitWs chord_content
    if note_tokens.isEmpty then none
    else
      let chord_notes := note_tokens.filterMap fun nt => parseSingleNote nt (some duration)
      match chord_notes with
      | [] => none
      | first :: partners =>
        match first with
        | .mk n o a d m _ =>
            some (.mk n o a d m (if partners.isEmpty then none else some partners))

/-- `LilyPondParser::parse_note`. -/
def parseNote (token : List Char) : Option Note :=
  let token := trimChars token
  match token with
  | [] => parseSingleNote [] none
  | c :: _ =>
    if c = '|' ∨ c = '\\' then none
    else if c = '<' then parseChord token
    else parseSingleNote token none

/-! ## Section parsers and score assembly -/

/-- `LilyPondParser::parse_notes_from_section` (the source's `Result`
never errs; tokens yielding no event are dropped). -/
def parseNotesFromSection (sect : List Char) : List PitchedEvent :=
  let sect := markComments sect
  let tokens := tokenize sect
  tokens.filterMap fun token =>
    match parseCommentToken token with
    | some txt =>
        some (.comment (String.mk (txt.map fun c => if c = '\x01' then ' ' else c)))
    | none =>
      if token.head? = some '|' then some .barLine
      else
        match parseRepeatStartToken token with
        | some count => some (.repeatStart count)
        | none =>
          if token = "__REPEAT_END__".data then some .repeatEnd
          else
            match parseRestToken token with
            | some d => some (.rest d)
            | none => (parseNote token).map .note

/-- `LilyPondParser::parse_drums_from_section`. -/
def parseDrumsFromSection (sect : List Char) : List DrumEvent :=
  let sect := markComments sect
  let tokens := tokenize sect
  tokens.filterMap fun token =>
    match parseCommentToken token with
    | some txt =>
        some (.comment (String.mk (txt.map fun c => if c = '\x01' then ' ' else c)))
    | none =>
      if token.head? = some '|' then some .barLine
      else
        match parseRepeatStartToken token with
        | some count => some (.repeatStart count)
        | none =>
          if token = "__REPEAT_END__".data then some .repeatEnd
          else
            match parseRestToken token with
            | some d => some (.rest d)
            | none => (parseDrumHit token).map .hit

/-- Matcher for `%\s*@strudel-of-lilypond@\s+(\w+)\s+punchcard`. -/
def matchPunchcard (l : List Char) : Option (List Char × List Char) := do
  let l ← matchLit "%".data l
  let (_, l) := takeWhile0 Char.isWhitespace l
  let l ← matchLit "@strudel-of-lilypond@".data l
  let (_, l) ← takeWhile1 Char.isWhitespace l
  let (word, l) ← takeWhile1 isWordChar l
  let (_, l) ← takeWhile1 Char.isWhitespace l
  let l ← matchLit "punchcard".data l
  pure (word, l)

/-- `LilyPondParser::parse_punchcard_color`. -/
def parsePunchcardColor (content : List Char) : Option String :=
  (findSplit matchPunchcard content).map fun pr => String.mk pr.2.1

/-- Matcher for `%\s*@strudel-of-lilypond@\s+gain\s+([^\n]+)`. -/
def matchGainDirective (l : List Char) : Option (List Char × List Char) := do
  let l ← matchLit "%".data l
  let (_, l) := takeWhile0 Char.isWhitespace l
  let l ← matchLit "@strudel-of-lilypond@".data l
  let (_, l) ← takeWhile1 Char.isWhitespace l
  let l ← matchLit "gain".data l
  let (_, l) ← takeWhile1 Char.isWhitespace l
  let (v, l) ← takeWhile1 (fun c => c != '\n') l
  pure (v, l)

/-- `LilyPondParser::parse_gain` (capture trimmed). -/
def parseGain (content : List Char) : Option String :=
  (findSplit matchGainDirective content).map fun pr => String.mk (trimChars pr.2.1)

/-- Matcher for `%\s*@strudel-of-lilypond@\s+pan\s+([^\n]+)`. -/
def matchPanDirective (l : List Char) : Option (List Char × List Char) := do
  let l ← matchLit "%".data l
  let (_, l) := takeWhile0 Char.isWhitespace l
  let l ← matchLit "@strudel-of-lilypond@".data l
  let (_, l) ← takeWhile1 Char.isWhitespace l
  let l ← matchLit "pan".data l
  let (_, l) ← takeWhile1 Char.isWhitespace l
  let (v, l) ← takeWhile1 (fun c => c != '\n') l
  pure (v, l)

/-- `LilyPondParser::parse_pan` (capture trimmed). -/
def parsePan (content : List Char) : Option String :=
  (findSplit matchPanDirective content).map fun pr => String.mk (trimChars pr.2.1)

/-- Matcher for `\\new\s+(Staff|TabStaff)\s*\{` (alternation tried left
to right; the alternatives start with distinct letters, so no
backtracking is needed): text after the `{`. -/
def matchNewStaff (l : List Char) : Option (Unit × List Char) := do
  let l ← matchLit "\\new".data l
  let (_, l) ← takeWhile1 Char.isWhitespace l
  let l ←
    match matchLit "Staff".data l with
    | some l' => some l'
    | none => matchLit "TabStaff".data l
  let (_, l) := takeWhile0 Char.isWhitespace l
  let l ← matchLit "\x7b".data l
  pure ((), l)

/-- Matcher for `\\new\s+DrumStaff\s*\{`. -/
def matchNewDrumStaff (l : List Char) : Option (Unit × List Char) := do
  let l ← matchLit "\\new".data l
  let (_, l) ← takeWhile1 Char.isWhitespace l
  let l ← matchLit "DrumStaff".data l
  let (_, l) := takeWhile0 Char.isWhitespace l
  let l ← matchLit "\x7b".data l
  pure ((), l)

/-- Matcher for `\\new\s+DrumVoice\s*\{`. -/
def matchNewDrumVoice (l : List Char) : Option (Unit × List Char) := do
  let l ← matchLit "\\new".data l
  let (_, l) ← takeWhile1 Char.isWhitespace l
  let l ← matchLit "DrumVoice".data l
  let (_, l) := takeWhile0 Char.isWhitespace l
  let l ← matchLit "\x7b".data l
  pure ((), l)

/-- The braced contents of all matches of a `\new …Staff… {` pattern, in
match order (matches with an unclosed brace are skipped, as in the
source). -/
def blockContents (m : List Char → Option (Unit × List Char)) (text : List Char) :
    List (List Char) :=
  (allMatches m (text.length + 1) text).filterMap fun pr =>
    (extractBraced pr.2 0).map (·.1)

/-- The `\new Staff` / `\new TabStaff` pass of `parse_score_staves`:
each block yields a pitched staff (or a one-voice percussive staff when
its pre-resolution text references a percussive macro); blocks parsing to
no events are discarded. -/
def pitchedPassStaves (simultaneous : List Char)
    (vars : List (List Char × VariableKind)) : List Staff :=
  (blockContents matchNewStaff simultaneous).filterMap fun staff_content =>
    let punchcard_color := parsePunchcardColor staff_content
    let gain := parseGain staff_content
    let pan := parsePan staff_content
    let resolved := resolveVariables staff_content vars
    if isDrumContent staff_content vars then
      let hits := parseDrumsFromSection resolved
      if hits.isEmpty then none
      else some (Staff.newDrums [⟨hits, punchcard_color, gain, pan⟩])
    else
      let notes := parseNotesFromSection resolved
      if notes.isEmpty then none
      else some (Staff.newPitchedWithOptions notes punchcard_color gain pan)

/-- The simultaneous span `text[start+2 .. end]` between the first `<<`
and the last `>>`, when the former comes first. -/
def simultaneousSpan (text : List Char) : Option (List Char) :=
  match findSplit (fun l => matchLit "<<".data l) text,
        rfindSplit ">>".data text with
  | some (preA, _), some (preB, _) =>
      if preA.length ≥ preB.length then none
      else some ((text.drop (preA.length + 2)).take (preB.length - preA.length - 2))
  | _, _ => none

/-- `LilyPondParser::parse_drum_voices`. -/
def parseDrumVoices (staff_content : List Char)
    (vars : List (List Char × VariableKind)) : List DrumVoiceData :=
  let voices :=
    match simultaneousSpan staff_content with
    | some simultaneous =>
        let fromBlocks :=
          (blockContents matchNewDrumVoice simultaneous).filterMap fun voice_content =>
            let punchcard_color := parsePunchcardColor voice_content
            let gain := parseGain voice_content
            let pan := parsePan voice_content
            let resolved := resolveVariables voice_content vars
            let events := parseDrumsFromSection resolved
            if events.isEmpty then none
            else some ⟨events, punchcard_color, gain, pan⟩
        if fromBlocks.isEmpty then
          (varRefsOf simultaneous).filterMap fun name =>
            match tableGet vars name with
            | some (.drums content) =>
                let events := parseDrumsFromSection content
                if events.isEmpty then none
                else some ⟨events, none, none, none⟩
            | _ => none
        else fromBlocks
    | none => []
  if voices.isEmpty then
    let events := parseDrumsFromSection (resolveVariables staff_content vars)
    if events.isEmpty then [] else [⟨events, none, none, none⟩]
  else voices

/-- The `\new DrumStaff` pass of `parse_score_staves`. -/
def drumPassStaves (simultaneous : List Char)
    (vars : List (List Char × VariableKind)) : List Staff :=
  (blockContents matchNewDrumStaff simultaneous).filterMap fun staff_content =>
    let voices := parseDrumVoices staff_content vars
    if voices.isEmpty then none else some (Staff.newDrums voices)

/-- The bare-`\name` fallback of `parse_score_staves` (used when neither
pass produced a staff). -/
def bareRefStaves (simultaneous : List Char)
    (vars : List (List Char × VariableKind)) : List Staff :=
  (varRefsOf simultaneous).filterMap fun name =>
    match tableGet vars name with
    | some (.pitched content) =>
        let notes := parseNotesFromSection content
        if notes.isEmpty then none else some (Staff.newPitched notes)
    | some (.drums content) =>
        let hits := parseDrumsFromSection content
        if hits.isEmpty then none
        else some (Staff.newDrums [⟨hits, none, none, none⟩])
    | none => none

/-- Matcher for `\\score\s*\{`: text after the `{`. -/
def matchScoreDirective (l : List Char) : Option (List Char) := do
  let l ← matchLit "\\score".data l
  let (_, l) := takeWhile0 Char.isWhitespace l
  let l ← matchLit "\x7b".data l
  pure l

/-- `LilyPondParser::parse_score_staves`.  The source's
`Result<Option<…>>` can never be `Err` (its section parsers never err),
so it is modelled as the `Option`. -/
def parseScoreStaves (code : List Char)
    (vars : List (List Char × VariableKind)) : Option (List Staff) :=
  match findSplit matchScoreDirective code with
  | none => none
  | some (_, afterBrace) =>
    match extractBraced afterBrace 0 with
    | none => none
    | some (score_content, _) =>
      match simultaneousSpan score_content with
      | none => none
      | some simultaneous =>
          let staves := pitchedPassStaves simultaneous vars ++
            drumPassStaves simultaneous vars
          let staves :=
            if staves.isEmpty then bareRefStaves simultaneous vars else staves
          if staves.isEmpty then none else some staves

/-! ## Tempo extraction and the top-level parse -/

/-- Matcher for `\\tempo\s+(\d+)\s*=\s*(\d+)`: the two digit captures. -/
def matchTempoLiteral (l : List Char) : Option (List Char × List Char) := do
  let l ← matchLit "\\tempo".data l
  let (_, l) ← takeWhile1 Char.isWhitespace l
  let (ds1, l) ← takeWhile1 Char.isDigit l
  let (_, l) := takeWhile0 Char.isWhitespace l
  let l ← matchLit "=".data l
  let (_, l) := takeWhile0 Char.isWhitespace l
  let (ds2, _) ← takeWhile1 Char.isDigit l
  pure (ds1, ds2)

/-- Matcher for `\\tempo\s+(\d+)\s*=\s*\\([a-zA-Z_][a-zA-Z0-9_]*)`. -/
def matchTempoVar (l : List Char) : Option (List Char × List Char) := do
  let l ← matchLit "\\tempo".data l
  let (_, l) ← takeWhile1 Char.isWhitespace l
  let (ds1, l) ← takeWhile1 Char.isDigit l
  let (_, l) := takeWhile0 Char.isWhitespace l
  let l ← matchLit "=".data l
  let (_, l) := takeWhile0 Char.isWhitespace l
  let l ← matchLit "\\".data l
  let (name, _) ← matchIdent l
  pure (ds1, name)

/-- Matcher for the scalar assignment `(?m)^<name>\s*=\s*(\d+)` (the
name is inserted literally, as with `regex::escape`). -/
def matchScalarDef (name : List Char) (l : List Char) :
    Option (List Char × List Char) := do
  let l ← matchLit name l
  let (_, l) := takeWhile0 Char.isWhitespace l
  let l ← matchLit "=".data l
  let (_, l) := takeWhile0 Char.isWhitespace l
  let (ds, l) ← takeWhile1 Char.isDigit l
  pure (ds, l)

/-- First line-anchored scalar assignment for `name`. -/
def findScalarDef (name code : List Char) : Option (List Char) :=
  ((lineAnchoredMatches (matchScalarDef name) (code.length + 1) code true).head?).map
    (·.1)

/-- `LilyPondParser::parse_tempo`.  Both `parse::<u32>()` calls use `?`:
a capture that overflows `u32` makes the whole extraction yield `None`. -/
def parseTempo (code : List Char) : Option Tempo :=
  match findSplit matchTempoLiteral code with
  | some (_, (ds1, ds2)) =>
      match parseU32 ds1, parseU32 ds2 with
      | some beat_unit, some bpm => some ⟨beat_unit, bpm⟩
      | _, _ => none
  | none =>
    match findSplit matchTempoVar code with
    | some (_, (ds1, name)) =>
        match parseU32 ds1 with
        | none => none
        | some beat_unit =>
          match findScalarDef name code with
          | some ds =>
              match parseU32 ds with
              | some bpm => some ⟨beat_unit, bpm⟩
              | none => none
          | none => none
    | none => none

/-- The error text of the missing-tempo failure in
`LilyPondParser::parse`. -/
def missingTempoMsg : String :=
  "Missing tempo: LilyPond input must include a \\tempo directive (e.g., \\tempo 4 = 120)"

/-- `LilyPondParser::extract_notes_section`. -/
def extractNotesSection (code : List Char) : Except String (List Char) :=
  match breakAt '{' code with
  | none => .error "No '\x7b' found"
  | some (pre, _) =>
    match rfindSplit "\x7d".data code with
    | none => .error "No '\x7d' found"
    | some (preB, _) =>
        if pre.length ≥ preB.length then .error "Invalid syntax"
        else .ok ((code.drop (pre.length + 1)).take (preB.length - pre.length - 1))

/-- `LilyPondParser::parse`. -/
def parseLilyPond (code : List Char) : Except String ParseResult :=
  match parseTempo code with
  | none => .error missingTempoMsg
  | some tempo =>
    let vars := parseVariables code
    let marked := markRepeats code
    let variables_marked := vars.map fun p =>
      (p.1,
        match p.2 with
        | VariableKind.pitched s => VariableKind.pitched (markRepeats s)
        | VariableKind.drums s => VariableKind.drums (markRepeats s))
    match parseScoreStaves marked variables_marked with
    | some staves => .ok ⟨staves, tempo⟩
    | none =>
      match extractNotesSection marked with
      | .error e => .error e
      | .ok notes_section =>
          .ok ⟨[Staff.newPitched (parseNotesFromSection notes_section)], tempo⟩

/-! ## C7: chord round-trip -/

/-- C7: `<a c e>4` parses to representative `a` with exactly the chord
partners `c` and `e`, all carrying the one duration 4 read after the
`>`, and renders as `[a3,c3,e3]` (letters plus octave, comma-joined in
brackets) with no weight suffix; with the non-default shared duration 2
(`<a c e>2`) a single `@2` suffix follows the closing bracket. -/
theorem c7_chord_round_trip :
    parseChord "<a c e>4".data =
      some (.mk 'a' 3 none 4 57
        (some [.mk 'c' 3 none 4 48 none, .mk 'e' 3 none 4 52 none])) ∧
    formatPitchedNote
        (.mk 'a' 3 none 4 57
          (some [.mk 'c' 3 none 4 48 none, .mk 'e' 3 none 4 52 none])) =
      "[a3,c3,e3]" ∧
    parseChord "<a c e>2".data =
      some (.mk 'a' 3 none 2 57
        (some [.mk 'c' 3 none 2 48 none, .mk 'e' 3 none 2 52 none])) ∧
    formatPitchedNote
        (.mk 'a' 3 none 2 57
          (some [.mk 'c' 3 none 2 48 none, .mk 'e' 3 none 2 52 none])) =
      "[a3,c3,e3]@2" :=
  ⟨rfl, rfl, rfl, rfl⟩

/-! ## C9: single-note token validation -/

theorem accidentalStep_shape (cs : List Char) :
    (accidentalStep cs).1 = none ∨
    ((accidentalStep cs).1 = some "is" ∧ ∃ t, cs = 'i' :: 's' :: t) ∨
    ((accidentalStep cs).1 = some "es" ∧ ∃ t, cs = 'e' :: 's' :: t) := by
  unfold accidentalStep
  split
  · rename_i cs'
    cases cs' with
    | nil => left; rfl
    | cons c₂ t =>
        by_cases h : c₂ = 's'
        · subst h
          right; left
          exact ⟨rfl, t, rfl⟩
        · left
          simp [h]
  · rename_i cs'
    cases cs' with
    | nil => left; rfl
    | cons c₂ t =>
        by_cases h : c₂ = 's'
        · subst h
          right; right
          exact ⟨rfl, t, rfl⟩
        · left
          simp [h]
  · left; rfl

theorem noteScan_some_shape (tok : List Char) (c : Char) (a : Option String)
    (o : Int) (d r : List Char) (h : noteScan tok = some (c, a, o, d, r)) :
    ∃ cs, tok = c :: cs ∧ a = (accidentalStep cs).1 := by
  match tok with
  | [] => simp [noteScan] at h
  | c₀ :: cs =>
    rw [noteScan] at h
    by_cases hc : c₀.isAlpha ∧ "abcdefg".data.contains c₀
    · rw [if_pos hc] at h
      simp only [Option.some.injEq, Prod.mk.injEq] at h
      exact ⟨cs, by rw [h.1], h.2.1.symm⟩
    · rw [if_neg hc] at h
      cases h

/-- C9 (amended): an accidental is recorded only as the exact
two-character suffix `is`/`es` directly after the letter; however the
accidental step also silently consumes a lone `i` or `e` not followed by
`s` (recording no accidental), and after the consuming phases (letter,
accidental step, octave marks, duration digits, trailing `.`/`~`) any
remaining alphabetic character makes the token produce no event — the
parser returns no note rather than erroring (its `Result` is never
`Err`). -/
theorem c9_single_note_validation (token : List Char) (od : Option Nat) :
    (∀ n, parseSingleNote token od = some n →
      n.accidental = none ∨
      (n.accidental = some "is" ∧ ∃ t, trimChars token = n.name :: 'i' :: 's' :: t) ∨
      (n.accidental = some "es" ∧ ∃ t, trimChars token = n.name :: 'e' :: 's' :: t)) ∧
    (parseSingleNote token od = none ↔
      noteScan (trimChars token) = none ∨
      ∃ c a o d r, noteScan (trimChars token) = some (c, a, o, d, r) ∧
        r.any Char.isAlpha = true) := by
  constructor
  · intro n hn
    rw [parseSingleNote] at hn
    cases hscan : noteScan (trimChars token) with
    | none => rw [hscan] at hn; cases hn
    | some q =>
        obtain ⟨c, a, o, d, r⟩ := q
        rw [hscan] at hn
        dsimp only at hn
        by_cases hr : r.any Char.isAlpha
        · rw [if_pos hr] at hn; cases hn
        · rw [if_neg hr] at hn
          simp only [Option.some.injEq] at hn
          subst hn
          obtain ⟨cs, htok, hacc⟩ := noteScan_some_shape _ _ _ _ _ _ hscan
          rcases accidentalStep_shape cs with h0 | ⟨his, t, ht⟩ | ⟨hes, t, ht⟩
          · left
            show a = none
            rw [hacc, h0]
          · right; left
            refine ⟨by rw [show a = some "is" from hacc.trans his]; rfl, t, ?_⟩
            rw [htok, ht]
            rfl
          · right; right
            refine ⟨by rw [show a = some "es" from hacc.trans hes]; rfl, t, ?_⟩
            rw [htok, ht]
            rfl
  · rw [parseSingleNote]
    cases hscan : noteScan (trimChars token) with
    | none =>
        constructor
        · intro _; exact Or.inl rfl
        · intro _; rfl
    | some q =>
        obtain ⟨c, a, o, d, r⟩ := q
        dsimp only
        by_cases hr : r.any Char.isAlpha
        · rw [if_pos hr]
          constructor
          · intro _; exact Or.inr ⟨c, a, o, d, r, rfl, hr⟩
          · intro _; rfl
        · rw [if_neg hr]
          constructor
          · intro hcontr; cases hcontr
          · rintro (h0 | ⟨c', a', o', d', r', heq, hany⟩)
            · cases h0
            · obtain ⟨h1, h2, h3, h4, h5⟩ :
                  c = c' ∧ a = a' ∧ o = o' ∧ d = d' ∧ r = r' := by
                have := heq
                simp only [Option.some.injEq, Prod.mk.injEq] at this
                exact ⟨this.1, this.2.1, this.2.2.1, this.2.2.2.1, this.2.2.2.2⟩
              subst h5
              exact absurd hany hr

/-- Witness for C9: the token `cq` (letter followed by a stray
alphabetic) yields no event. -/
theorem c9_single_note_validation_witness :
    parseSingleNote "cq".data none = none :=
  (c9_single_note_validation "cq".data none).2.mpr
    (Or.inr ⟨'c', none, 3, [], ['q'], rfl, rfl⟩)

/-- C9 counterexample: `ci` and `ci4` leave the stray `i` (not an
accidental — no `s` follows) after the letter, so by the claim they
should produce no event, yet the parser consumes the `i` and yields the
note `c`. -/
theorem c9_counterexample_lone_vowel_consumed :
    parseSingleNote "ci".data none = some (.mk 'c' 3 none 4 48 none) ∧
    parseSingleNote "ci4".data none = some (.mk 'c' 3 none 4 48 none) :=
  ⟨rfl, rfl⟩

/-! ## C8: macro self-reference and the resolver's fixpoint loop -/

/-- A macro table with a self-referencing macro: `A = { c \A }`. -/
def selfRefTable : List (List Char × VariableKind) :=
  [("A".data, .pitched "c \\A".data)]

/-- The successive texts produced by the `resolve_variables` loop (the
source's `result` after `n` passes). -/
def resolveIterate (vars : List (List Char × VariableKind)) (content : List Char) :
    Nat → List Char
  | 0 => content
  | n + 1 => (resolvePass vars (resolveIterate vars content n)).1

theorem resolvePassF_selfRef (pre : List Char) :
    ∀ f, (∀ c ∈ pre, c ≠ '\\') → pre.length + 2 ≤ f →
      resolvePassF selfRefTable f (pre ++ "\\A".data) =
        (pre ++ "c \\A".data, true) := by
  induction pre with
  | nil =>
      intro f _ hf
      match f, hf with
      | f + 2, _ => rfl
  | cons c pre ih =>
      intro f hpre hf
      match f, hf with
      | f + 1, hf' =>
          show resolvePassF selfRefTable (f + 1) (c :: (pre ++ "\\A".data)) = _
          rw [resolvePassF]
          rw [if_neg (hpre c (List.mem_cons_self c pre))]
          rw [ih f (fun x hx => hpre x (List.mem_cons_of_mem c hx)) (by
            simp at hf' ⊢; omega)]
          rfl

theorem resolveIterate_selfRef (n : Nat) :
    ∃ pre, resolveIterate selfRefTable "\\A".data n = pre ++ "\\A".data ∧
      ∀ c ∈ pre, c ≠ '\\' := by
  induction n with
  | zero => exact ⟨[], rfl, by intro c hc; cases hc⟩
  | succ n ih =>
      obtain ⟨pre, hit, hpre⟩ := ih
      refine ⟨pre ++ "c ".data, ?_, ?_⟩
      · show (resolvePass selfRefTable (resolveIterate selfRefTable "\\A".data n)).1 = _
        rw [hit, resolvePass]
        rw [resolvePassF_selfRef pre _ hpre (by simp)]
        simp
      · intro c hc
        rcases List.mem_append.mp hc with h | h
        · exact hpre c h
        · have hc' : c = 'c' ∨ c = ' ' := by simpa using h
          rcases hc' with rfl | rfl <;> decide

/-- C8: on the self-referencing macro table `A = { c \A }`, every
`replace_all` pass over the current text reports a replacement
(`changed = true`), so the source's `resolve_variables` fixpoint loop —
which stops only when a pass changes nothing — never exits on content
mentioning `\A`: macro resolution does not terminate. -/
theorem c8_self_reference_never_stabilizes (n : Nat) :
    (resolvePass selfRefTable (resolveIterate selfRefTable "\\A".data n)).2 = true := by
  obtain ⟨pre, hit, hpre⟩ := resolveIterate_selfRef n
  rw [hit, resolvePass]
  rw [resolvePassF_selfRef pre _ hpre (by simp)]

/-! ## C4: order of staves -/

set_option maxRecDepth 4096 in
/-- C4 (amended): `parse_score_staves` enumerates the pitched
(`Staff`/`TabStaff`) blocks of the simultaneous span first, in source
order, and then the `DrumStaff` blocks, in source order — the combined
result is the pitched pass followed by the drum pass (with the bare
macro-reference fallback when both passes are empty), not the interleaved
source order.  Concretely, a score listing DrumStaff, Staff, DrumStaff,
Staff yields the two pitched staves first and the two drum staves after
them, each pair in source order. -/
theorem c4_staves_pitched_then_drums :
    (∀ code vars staves,
        parseScoreStaves code vars = some staves →
        ∃ sim,
          ((findSplit matchScoreDirective code).bind fun pr =>
              (extractBraced pr.2 0).bind fun sc => simultaneousSpan sc.1) =
            some sim ∧
          (staves = pitchedPassStaves sim vars ++ drumPassStaves sim vars ∨
            (pitchedPassStaves sim vars ++ drumPassStaves sim vars = [] ∧
             staves = bareRefStaves sim vars))) ∧
    parseLilyPond ("\\tempo 4 = 120 \\score \x7b << \\new DrumStaff \x7b bd4 \x7d " ++
        "\\new Staff \x7b c4 \x7d \\new DrumStaff \x7b sn4 \x7d \\new Staff \x7b d4 \x7d >> \x7d").data =
      .ok ⟨[Staff.newPitchedWithOptions [.note (.mk 'c' 3 none 4 48 none)] none none none,
            Staff.newPitchedWithOptions [.note (.mk 'd' 3 none 4 50 none)] none none none,
            Staff.newDrums [⟨[.hit ⟨"bd", 4⟩], none, none, none⟩],
            Staff.newDrums [⟨[.hit ⟨"sd", 4⟩], none, none, none⟩]],
           ⟨4, 120⟩⟩ := by
  constructor
  · intro code vars staves h
    rw [parseScoreStaves] at h
    cases hfind : findSplit matchScoreDirective code with
    | none => rw [hfind] at h; cases h
    | some pr =>
      obtain ⟨pr1, pr2⟩ := pr
      rw [hfind] at h
      dsimp only at h
      cases hex : extractBraced pr2 0 with
      | none => rw [hex] at h; cases h
      | some sc =>
        obtain ⟨sc1, sc2⟩ := sc
        rw [hex] at h
        dsimp only at h
        cases hsim : simultaneousSpan sc1 with
        | none => rw [hsim] at h; cases h
        | some sim =>
          rw [hsim] at h
          dsimp only at h
          refine ⟨sim, ?_, ?_⟩
          · show (extractBraced pr2 0).bind _ = _
            rw [hex]
            show simultaneousSpan sc1 = _
            rw [hsim]
          · by_cases he :
                (pitchedPassStaves sim vars ++ drumPassStaves sim vars).isEmpty
            · rw [if_pos he] at h
              right
              refine ⟨List.isEmpty_iff.mp he, ?_⟩
              by_cases hb : (bareRefStaves sim vars).isEmpty
              · rw [if_pos hb] at h; cases h
              · rw [if_neg hb] at h
                exact (Option.some.inj h).symm
            · rw [if_neg he] at h
              rw [if_neg he] at h
              left
              exact (Option.some.inj h).symm
  · rfl

set_option maxRecDepth 4096 in
/-- C4 counterexample: in this input the first staff block of the
simultaneous span (counting both kinds in source order) is the
`DrumStaff`, yet the first staff of the parse result is the pitched
`Staff` — the drum staff is moved after it. -/
theorem c4_counterexample_drum_staff_reordered :
    parseLilyPond ("\\tempo 4 = 120 \\score \x7b << \\new DrumStaff \x7b bd4 \x7d " ++
        "\\new Staff \x7b c4 \x7d >> \x7d").data =
      .ok ⟨[Staff.newPitchedWithOptions [.note (.mk 'c' 3 none 4 48 none)] none none none,
            Staff.newDrums [⟨[.hit ⟨"bd", 4⟩], none, none, none⟩]],
           ⟨4, 120⟩⟩ := rfl

/-! ## C5: tempo extraction -/

theorem digit_not_ws (c : Char) (h : c.isDigit = true) : c.isWhitespace = false := by
  cases hw : c.isWhitespace
  · rfl
  · have hc : ((c = ' ' ∨ c = '\t') ∨ c = '\x0d') ∨ c = '\n' := by
      simpa [Char.isWhitespace] using hw
    rcases hc with ((rfl | rfl) | rfl) | rfl <;> exact absurd h (by decide)

theorem matchLit_self_append (p rest : List Char) :
    matchLit p (p ++ rest) = some rest := by
  induction p with
  | nil => rfl
  | cons c p ih => simp [matchLit, ih]

theorem takeWhile_head_false (p : Char → Bool) (l : List Char)
    (h : ∀ x, l.head? = some x → p x = false) : l.takeWhile p = [] := by
  cases l with
  | nil => rfl
  | cons c r => simp [List.takeWhile, h c rfl]

theorem dropWhile_head_false (p : Char → Bool) (l : List Char)
    (h : ∀ x, l.head? = some x → p x = false) : l.dropWhile p = l := by
  cases l with
  | nil => rfl
  | cons c r => simp [List.dropWhile, h c rfl]

theorem takeWhile_run (p : Char → Bool) (run t : List Char)
    (hall : ∀ c ∈ run, p c = true) (ht : ∀ x, t.head? = some x → p x = false) :
    (run ++ t).takeWhile p = run ∧ (run ++ t).dropWhile p = t := by
  induction run with
  | nil => exact ⟨takeWhile_head_false p t ht, dropWhile_head_false p t ht⟩
  | cons c rs ih =>
      have h1 := hall c (List.mem_cons_self c rs)
      have ih' := ih fun x hx => hall x (List.mem_cons_of_mem c hx)
      simp [List.takeWhile, List.dropWhile, h1, ih'.1, ih'.2]

theorem takeWhile0_run (p : Char → Bool) (run t : List Char)
    (hall : ∀ c ∈ run, p c = true) (ht : ∀ x, t.head? = some x → p x = false) :
    takeWhile0 p (run ++ t) = (run, t) := by
  have h := takeWhile_run p run t hall ht
  simp [takeWhile0, h.1, h.2]

theorem takeWhile1_run (p : Char → Bool) (run t : List Char) (hne : run ≠ [])
    (hall : ∀ c ∈ run, p c = true) (ht : ∀ x, t.head? = some x → p x = false) :
    takeWhile1 p (run ++ t) = some (run, t) := by
  have h := takeWhile_run p run t hall ht
  rw [takeWhile1, h.1, h.2]
  simp [hne]

theorem findSplit_skip {α : Type} (m : List Char → Option α) (pre rest : List Char)
    (h : ∀ c ∈ pre, ∀ t, m (c :: t) = none) :
    findSplit m (pre ++ rest) = (findSplit m rest).map fun pa => (pre ++ pa.1, pa.2) := by
  induction pre with
  | nil => cases hf : findSplit m rest <;> simp [hf]
  | cons c pre ih =>
      show findSplit m (c :: (pre ++ rest)) = _
      rw [findSplit, h c (List.mem_cons_self c pre)]
      rw [ih fun x hx t => h x (List.mem_cons_of_mem c hx) t]
      cases hf : findSplit m rest <;> simp [hf]

theorem findSplit_of_match {α : Type} (m : List Char → Option α) (l : List Char)
    (a : α) (h : m l = some a) : findSplit m l = some ([], a) := by
  cases l with
  | nil => simp [findSplit, h]
  | cons c r => simp [findSplit, h]

theorem matchTempoLiteral_head (c : Char) (l : List Char) (h : c ≠ '\\') :
    matchTempoLiteral (c :: l) = none := by
  rw [matchTempoLiteral]
  rw [show matchLit "\\tempo".data (c :: l) =
      (if c = '\\' then matchLit "tempo".data l else none) from rfl]
  rw [if_neg h]
  rfl

theorem matchTempoLiteral_at (ds1 ds2 post : List Char)
    (h1ne : ds1 ≠ []) (h1d : ∀ c ∈ ds1, c.isDigit = true)
    (h2ne : ds2 ≠ []) (h2d : ∀ c ∈ ds2, c.isDigit = true)
    (hpost : ∀ x, post.head? = some x → x.isDigit = false) :
    matchTempoLiteral ("\\tempo".data ++
        (' ' :: (ds1 ++ (' ' :: '=' :: ' ' :: (ds2 ++ post))))) = some (ds1, ds2) := by
  have hd1head : ∀ x, (ds1 ++ (' ' :: '=' :: ' ' :: (ds2 ++ post))).head? = some x →
      x.isWhitespace = false := by
    cases ds1 with
    | nil => exact absurd rfl h1ne
    | cons d ds =>
        intro x hx
        have hdx : d = x := Option.some.inj hx
        subst hdx
        exact digit_not_ws d (h1d d (List.mem_cons_self d ds))
  have hd2head : ∀ x, (ds2 ++ post).head? = some x → x.isWhitespace = false := by
    cases ds2 with
    | nil => exact absurd rfl h2ne
    | cons d ds =>
        intro x hx
        have hdx : d = x := Option.some.inj hx
        subst hdx
        exact digit_not_ws d (h2d d (List.mem_cons_self d ds))
  have h1 := matchLit_self_append "\\tempo".data
    (' ' :: (ds1 ++ (' ' :: '=' :: ' ' :: (ds2 ++ post))))
  have h2 : takeWhile1 Char.isWhitespace
      (' ' :: (ds1 ++ (' ' :: '=' :: ' ' :: (ds2 ++ post)))) =
      some ([' '], ds1 ++ (' ' :: '=' :: ' ' :: (ds2 ++ post))) :=
    takeWhile1_run Char.isWhitespace [' '] _ (by simp)
      (by intro c hc; rcases List.mem_singleton.mp hc with rfl; decide) hd1head
  have h3 := takeWhile1_run Char.isDigit ds1 (' ' :: '=' :: ' ' :: (ds2 ++ post))
    h1ne h1d (by
      intro x hx
      have hdx : ' ' = x := Option.some.inj hx
      subst hdx
      decide)
  have h4 : takeWhile0 Char.isWhitespace (' ' :: '=' :: ' ' :: (ds2 ++ post)) =
      ([' '], '=' :: ' ' :: (ds2 ++ post)) :=
    takeWhile0_run Char.isWhitespace [' '] _
      (by intro c hc; rcases List.mem_singleton.mp hc with rfl; decide)
      (by
        intro x hx
        have hdx : '=' = x := Option.some.inj hx
        subst hdx
        decide)
  have h5 : matchLit ['='] ('=' :: ' ' :: (ds2 ++ post)) = some (' ' :: (ds2 ++ post)) := by
    exact matchLit_self_append ['='] (' ' :: (ds2 ++ post))
  have h6 : takeWhile0 Char.isWhitespace (' ' :: (ds2 ++ post)) = ([' '], ds2 ++ post) :=
    takeWhile0_run Char.isWhitespace [' '] _
      (by intro c hc; rcases List.mem_singleton.mp hc with rfl; decide) hd2head
  have h7 := takeWhile1_run Char.isDigit ds2 post h2ne h2d hpost
  rw [matchTempoLiteral]
  rw [h1]
  simp only [Option.bind_eq_bind, Option.some_bind]
  rw [h2]
  simp only [Option.some_bind]
  rw [h3]
  simp only [Option.some_bind]
  rw [h4]
  dsimp only
  rw [h5]
  simp only [Option.some_bind]
  rw [h6]
  dsimp only
  rw [h7]
  simp only [Option.some_bind]
  rfl

theorem parseTempo_literal (pre ds1 ds2 post : List Char)
    (hpre : ∀ c ∈ pre, c ≠ '\\') (h1ne : ds1 ≠ [])
    (h1d : ∀ c ∈ ds1, c.isDigit = true) (h2ne : ds2 ≠ [])
    (h2d : ∀ c ∈ ds2, c.isDigit = true)
    (hpost : ∀ x, post.head? = some x → x.isDigit = false)
    (hb1 : digitsToNat ds1 < 2 ^ 32) (hb2 : digitsToNat ds2 < 2 ^ 32) :
    parseTempo (pre ++ "\\tempo ".data ++ ds1 ++ " = ".data ++ ds2 ++ post) =
      some ⟨digitsToNat ds1, digitsToNat ds2⟩ := by
  have hassoc : pre ++ "\\tempo ".data ++ ds1 ++ " = ".data ++ ds2 ++ post =
      pre ++ ("\\tempo".data ++ (' ' :: (ds1 ++ (' ' :: '=' :: ' ' :: (ds2 ++ post))))) := by
    simp only [List.append_assoc]
    rfl
  rw [hassoc, parseTempo]
  rw [findSplit_skip matchTempoLiteral pre _
    (fun c hc t => matchTempoLiteral_head c t (hpre c hc))]
  rw [findSplit_of_match matchTempoLiteral _ _
    (matchTempoLiteral_at ds1 ds2 post h1ne h1d h2ne h2d hpost)]
  dsimp only [Option.map]
  rw [show parseU32 ds1 = some (digitsToNat ds1) from by rw [parseU32, if_pos hb1]]
  rw [show parseU32 ds2 = some (digitsToNat ds2) from by rw [parseU32, if_pos hb2]]

/-- C5 (amended): when no tempo directive resolves, `parse` fails with
the fatal missing-tempo error (whose text contains `tempo`) and returns
no partial result; any successful parse carries `parse_tempo`'s value
unchanged; and an input containing a literal tempo directive (first
match, backslash-free prefix, `u32`-fitting integers) makes `parse_tempo`
yield exactly the two literal integers.  `parse` itself can still fail
for unrelated structural reasons (e.g. a missing `{`), in which case no
`Tempo` is produced even though the directive is present. -/
theorem c5_tempo_extraction :
    (∀ code, parseTempo code = none →
        parseLilyPond code = .error missingTempoMsg) ∧
    "tempo".data <:+: missingTempoMsg.data ∧
    (∀ code r, parseLilyPond code = .ok r → parseTempo code = some r.tempo) ∧
    (∀ pre ds1 ds2 post, (∀ c ∈ pre, c ≠ '\\') → ds1 ≠ [] →
        (∀ c ∈ ds1, c.isDigit = true) → ds2 ≠ [] →
        (∀ c ∈ ds2, c.isDigit = true) →
        (∀ x, post.head? = some x → x.isDigit = false) →
        digitsToNat ds1 < 2 ^ 32 → digitsToNat ds2 < 2 ^ 32 →
        parseTempo (pre ++ "\\tempo ".data ++ ds1 ++ " = ".data ++ ds2 ++ post) =
          some ⟨digitsToNat ds1, digitsToNat ds2⟩) := by
  refine ⟨?_, by decide, ?_, parseTempo_literal⟩
  · intro code h
    rw [parseLilyPond, h]
  · intro code r h
    rw [parseLilyPond] at h
    cases ht : parseTempo code with
    | none => rw [ht] at h; cases h
    | some t =>
        rw [ht] at h
        dsimp only at h
        split at h
        · have hr := Except.ok.inj h
          rw [← hr]
        · split at h
          · cases h
          · have hr := Except.ok.inj h
            rw [← hr]

/-- Witness for C5: the literal directive `\tempo 4 = 120` inside
`\tempo 4 = 120 { c4 }` is extracted as `Tempo 4 120`, and an input with
no tempo directive fails with the missing-tempo error. -/
theorem c5_tempo_extraction_witness :
    parseTempo ([] ++ "\\tempo ".data ++ "4".data ++ " = ".data ++ "120".data ++
        " \x7b c4 \x7d".data) = some ⟨4, 120⟩ ∧
    parseLilyPond "\x7b c4 \x7d".data = .error missingTempoMsg := by
  constructor
  · exact c5_tempo_extraction.2.2.2 [] "4".data "120".data " \x7b c4 \x7d".data
      (by intro c hc; cases hc) (by decide) (by decide) (by decide) (by decide)
      (by
        intro x hx
        have h : ' ' = x := Option.some.inj hx
        subst h
        decide)
      (by decide) (by decide)
  · exact c5_tempo_extraction.1 "\x7b c4 \x7d".data rfl

/-- C5 counterexample: the input `\tempo 4 = 120` contains a literal
tempo directive, yet `parse` yields no `Tempo` at all — it fails in the
bar-extraction fallback with `No '{' found`. -/
theorem c5_counterexample_tempo_without_braces :
    parseTempo "\\tempo 4 = 120".data = some ⟨4, 120⟩ ∧
    parseLilyPond "\\tempo 4 = 120".data = .error "No '\x7b' found" :=
  ⟨rfl, rfl⟩

set_option maxRecDepth 4096 in
/-- Witness for C4 applied at a concrete score: the located simultaneous
span decomposes the result into the pitched pass followed by the drum
pass. -/
theorem c4_staves_pitched_then_drums_witness :
    ∃ sim,
      ((findSplit matchScoreDirective "\\score \x7b << \\new Staff \x7b c4 \x7d >> \x7d".data).bind
          fun pr => (extractBraced pr.2 0).bind fun sc => simultaneousSpan sc.1) =
        some sim ∧
      ([Staff.newPitchedWithOptions [.note (.mk 'c' 3 none 4 48 none)] none none none] =
          pitchedPassStaves sim [] ++ drumPassStaves sim [] ∨
        (pitchedPassStaves sim [] ++ drumPassStaves sim [] = [] ∧
         [Staff.newPitchedWithOptions [.note (.mk 'c' 3 none 4 48 none)] none none none] =
           bareRefStaves sim [])) :=
  c4_staves_pitched_then_drums.1 "\\score \x7b << \\new Staff \x7b c4 \x7d >> \x7d".data []
    [Staff.newPitchedWithOptions [.note (.mk 'c' 3 none 4 48 none)] none none none] rfl
